import Mathlib

/-
Verification of the dynamic translation cache
(src/ocelot/executive/implementation/DynamicTranslationCache.cpp).

The C++ source is shallowly embedded: each layout pass over a subkernel's
control-flow graph becomes a pure Lean function over an explicit IR, and the
stateful cache operations become state-passing functions.  The instruction
stream of a kernel is the concatenation of the basic blocks in the iteration
order of the source's loops, which visit every instruction of every block in
order.  `unsigned int` sizes and offsets are modelled as `Nat` (the programs
only add and take maxima, so no overflow behaviour is relevant at the sizes
considered).  `assert`/`assertM` failures and thrown exceptions are modelled
by `Except.error`.
-/

namespace DynTransCache

/-! ## The `pad` helper (DynamicTranslationCache.cpp, `pad`)

The source mutates `size` in place and returns the padding that was added:
`padding = alignment - (size % alignment); padding = (alignment == padding) ?
0 : padding; size += padding`.  `padAmount` is the returned padding and `pad`
is the updated running size. -/

def padAmount (size alignment : Nat) : Nat :=
  let padding := alignment - size % alignment
  if alignment = padding then 0 else padding

def pad (size alignment : Nat) : Nat :=
  size + padAmount size alignment

theorem pad_le (size alignment : Nat) : size ≤ pad size alignment :=
  Nat.le_add_right _ _

theorem padAmount_of_mod_eq_zero (size alignment : Nat) (h : size % alignment = 0) :
    padAmount size alignment = 0 := by
  unfold padAmount
  simp [h]

theorem pad_of_mod_eq_zero (size alignment : Nat) (h : size % alignment = 0) :
    pad size alignment = size := by
  unfold pad
  rw [padAmount_of_mod_eq_zero size alignment h]
  exact Nat.add_zero size

theorem pad_zero (alignment : Nat) : pad 0 alignment = 0 :=
  pad_of_mod_eq_zero 0 alignment (Nat.zero_mod alignment)

theorem pad_mod (size alignment : Nat) (h : 0 < alignment) :
    pad size alignment % alignment = 0 := by
  rcases eq_or_ne (size % alignment) 0 with h0 | h0
  · rw [pad_of_mod_eq_zero size alignment h0]
    exact h0
  · have hlt : size % alignment < alignment := Nat.mod_lt size h
    have hne : alignment ≠ alignment - size % alignment := by
      omega
    have hpad : pad size alignment = size + (alignment - size % alignment) := by
      unfold pad padAmount
      simp [hne]
    rw [hpad]
    have hdm : alignment * (size / alignment) + size % alignment = size :=
      Nat.div_add_mod size alignment
    have : size + (alignment - size % alignment)
        = alignment * (size / alignment + 1) := by
      rw [Nat.mul_add, Nat.mul_one]
      omega
    rw [this]
    exact Nat.mul_mod_right _ _

/-! ## Association lists

The source uses `std::unordered_map` / `std::map` for its offset tables and
caches; these are modelled as association lists.  `assocLookup` returns the
first binding of a key (an `insert` into the C++ maps never replaces an
existing binding, so appending a new binding at the end and looking up the
first match coincides with map semantics).  `assocUpdate` models `operator[]`
assignment, which replaces an existing binding or creates one. -/

def assocLookup {α β : Type} [DecidableEq α] : List (α × β) → α → Option β
  | [], _ => none
  | (k, v) :: rest, key => if k = key then some v else assocLookup rest key

def assocUpdate {α β : Type} [DecidableEq α] : List (α × β) → α → β → List (α × β)
  | [], key, val => [(key, val)]
  | (k, v) :: rest, key, val =>
    if k = key then (key, val) :: rest else (k, v) :: assocUpdate rest key val

def keysOf {α β : Type} (m : List (α × β)) : List α :=
  m.map Prod.fst

theorem assocLookup_update_self {α β : Type} [DecidableEq α]
    (m : List (α × β)) (k : α) (v : β) :
    assocLookup (assocUpdate m k v) k = some v := by
  induction m with
  | nil => simp [assocUpdate, assocLookup]
  | cons hd tl ih =>
    obtain ⟨k', v'⟩ := hd
    by_cases h : k' = k
    · simp [assocUpdate, assocLookup, h]
    · simp [assocUpdate, assocLookup, h, ih]

theorem assocLookup_update_ne {α β : Type} [DecidableEq α]
    (m : List (α × β)) (k k' : α) (v : β) (h : k ≠ k') :
    assocLookup (assocUpdate m k v) k' = assocLookup m k' := by
  induction m with
  | nil => simp [assocUpdate, assocLookup, h]
  | cons hd tl ih =>
    obtain ⟨k0, v0⟩ := hd
    by_cases h0 : k0 = k
    · subst h0
      simp [assocUpdate, assocLookup, h]
    · simp [assocUpdate, assocLookup, h0, ih]

theorem assocLookup_append {α β : Type} [DecidableEq α]
    (m m' : List (α × β)) (k : α) :
    assocLookup (m ++ m') k
      = (assocLookup m k).orElse (fun _ => assocLookup m' k) := by
  induction m with
  | nil => simp [assocLookup]
  | cons hd tl ih =>
    obtain ⟨k0, v0⟩ := hd
    by_cases h0 : k0 = k
    · simp [assocLookup, h0]
    · simp [assocLookup, h0, ih]

theorem assocLookup_isSome_iff_mem_keys {α β : Type} [DecidableEq α]
    (m : List (α × β)) (k : α) :
    (assocLookup m k).isSome = true ↔ k ∈ keysOf m := by
  induction m with
  | nil => simp [assocLookup, keysOf]
  | cons hd tl ih =>
    obtain ⟨k0, v0⟩ := hd
    by_cases h0 : k0 = k
    · simp [assocLookup, keysOf, h0]
    · simp [assocLookup, keysOf, h0, ih, Ne.symm h0]

/-! ## The PTX IR, as far as the layout passes consume it -/

inductive AddressMode
  | Register
  | Immediate
  | Address
  | Indirect
  | FunctionName
  deriving DecidableEq

inductive Opcode
  | Mov
  | Ld
  | St
  | Cvta
  | Call
  | Tex
  | Ret
  deriving DecidableEq

inductive AddressSpace
  | Generic
  | Global
  | Shared
  | Const
  | Local
  deriving DecidableEq

/-- `ir::PTXStatement` directive of a module-level global variable. -/
inductive Directive
  | Global
  | Shared
  | Const
  | Local
  deriving DecidableEq

/-- `ir::PTXStatement` attribute: `Extern` marks size-unspecified declarations. -/
inductive VarAttr
  | Ext
  | NoAttr
  deriving DecidableEq

/-- One element of a call operand's `array` (`ir::PTXOperand::Array`): the
layout passes consume only its identifier and the byte width
`ir::PTXOperand::bytes(type)` of its scalar type. -/
structure CallArg where
  identifier : String
  typeBytes : Nat
  deriving DecidableEq

structure PTXOperand where
  addressMode : AddressMode
  identifier : String
  offset : Nat
  isArgument : Bool
  array : List CallArg
  deriving DecidableEq

def PTXOperand.register : PTXOperand :=
  ⟨AddressMode.Register, "", 0, false, []⟩

structure PTXInstruction where
  opcode : Opcode
  tailCall : Bool
  addressSpace : AddressSpace
  d : PTXOperand
  a : PTXOperand
  b : PTXOperand
  c : PTXOperand
  deriving DecidableEq

/-- `ir::Parameter`: a declared kernel argument with `getSize()` and
`getAlignment()`. -/
structure Parameter where
  name : String
  size : Nat
  alignment : Nat
  deriving DecidableEq

/-- A module-level global variable (`ir::Global`), reduced to the statement
fields the passes read: `name`, `directive`, `attribute`, `alignment`,
`PTXOperand::bytes(type)` and `bytes()`. -/
structure GlobalVariable where
  name : String
  directive : Directive
  attr : VarAttr
  alignment : Nat
  typeBytes : Nat
  bytes : Nat
  deriving DecidableEq

/-- A kernel-local declaration (`ir::Kernel::LocalMap` entry). -/
structure LocalVariable where
  name : String
  space : AddressSpace
  attr : VarAttr
  alignment : Nat
  typeBytes : Nat
  size : Nat
  deriving DecidableEq

/-- One entry of `kernel.module->kernels()`: the parameter-layout post-pass
reads only whether `function()` holds and the declared argument list. -/
structure ModuleFunction where
  isFunction : Bool
  arguments : List Parameter
  deriving DecidableEq

/-- A subkernel (`ir::PTXKernel`) together with the module context the layout
passes read.  `instructions` is the kernel's control-flow graph flattened in
block order, which is exactly the order the source's nested loops visit. -/
structure PTXKernel where
  arguments : List Parameter
  instructions : List PTXInstruction
  globals : List GlobalVariable
  locals : List LocalVariable
  moduleFunctions : List ModuleFunction
  deriving DecidableEq

/-! ## Argument layout (`setupArgumentMemoryReferences`) -/

/-- First loop of `setupArgumentMemoryReferences`: place each declared
argument sequentially, padding the running offset to the argument's own
alignment before placing it.  Returns the offset table in insertion order and
the final running offset (which becomes `metadata->argumentSize`). -/
def argumentOffsetsAux : Nat → List Parameter → List (String × Nat) × Nat
  | offset, [] => ([], offset)
  | offset, arg :: rest =>
    let off := pad offset arg.alignment
    let r := argumentOffsetsAux (off + arg.size) rest
    ((arg.name, off) :: r.1, r.2)

def argumentOffsets (args : List Parameter) : List (String × Nat) × Nat :=
  argumentOffsetsAux 0 args

/-- The padded size each argument contributes (alignment padding plus
`getSize()`), accumulated from running offset `offset`. -/
def sumPaddedSizes : Nat → List Parameter → Nat
  | _, [] => 0
  | offset, arg :: rest =>
    (padAmount offset arg.alignment + arg.size)
      + sumPaddedSizes (pad offset arg.alignment + arg.size) rest

theorem argumentOffsetsAux_total (args : List Parameter) :
    ∀ offset, (argumentOffsetsAux offset args).2 = offset + sumPaddedSizes offset args := by
  induction args with
  | nil => intro offset; simp [argumentOffsetsAux, sumPaddedSizes]
  | cons arg rest ih =>
    intro offset
    simp only [argumentOffsetsAux, sumPaddedSizes]
    rw [ih]
    unfold pad
    omega

/-- Second loop of `setupArgumentMemoryReferences`: on `Mov`/`Ld`/`St`
instructions, an `Address`-mode operand whose identifier is in the argument
offset table has the declared offset added to its own and is flagged as an
argument. -/
def argumentRewriteOperand (offsets : List (String × Nat)) (op : PTXOperand) : PTXOperand :=
  if op.addressMode = AddressMode.Address then
    match assocLookup offsets op.identifier with
    | some o => { op with offset := op.offset + o, isArgument := true }
    | none => op
  else op

def argumentRewriteInstruction (offsets : List (String × Nat))
    (i : PTXInstruction) : PTXInstruction :=
  if i.opcode = Opcode.Mov ∨ i.opcode = Opcode.Ld ∨ i.opcode = Opcode.St then
    { i with
      d := argumentRewriteOperand offsets i.d
      a := argumentRewriteOperand offsets i.a
      b := argumentRewriteOperand offsets i.b
      c := argumentRewriteOperand offsets i.c }
  else i

/-- `setupArgumentMemoryReferences`: returns the rewritten kernel and
`metadata->argumentSize`. -/
def setupArgumentMemoryReferences (k : PTXKernel) : PTXKernel × Nat :=
  let r := argumentOffsets k.arguments
  ({ k with instructions := k.instructions.map (argumentRewriteInstruction r.1) }, r.2)

/-- What the argument-rewrite loop does to one operand it handles: the
declared offset is added to the operand's original one and the operand is
flagged as an argument. -/
def argumentRewriteSpec (offsets : List (String × Nat)) (old new : PTXOperand) : Prop :=
  old.addressMode = AddressMode.Address →
    ∀ o, assocLookup offsets old.identifier = some o →
      new.offset = old.offset + o ∧ new.isArgument = true

/-- An `int`-then-`double` argument list as in the specification's
end-to-end example: 4-byte aligned 4-byte `x`, 8-byte aligned 8-byte `y`. -/
def intDoubleArguments : List Parameter :=
  [⟨"x", 4, 4⟩, ⟨"y", 8, 8⟩]

/-- An `Ld` instruction reading argument `y` at original offset 3 (witness
input for the argument-layout claim). -/
def iC4w : PTXInstruction :=
  ⟨Opcode.Ld, false, AddressSpace.Generic, PTXOperand.register,
   ⟨AddressMode.Address, "y", 3, false, []⟩,
   PTXOperand.register, PTXOperand.register⟩

def kC4w : PTXKernel :=
  ⟨intDoubleArguments, [iC4w], [], [], []⟩

def iC4w' : PTXInstruction :=
  argumentRewriteInstruction (argumentOffsets kC4w.arguments).1 iC4w

/-- The same `Address`-mode operand naming argument `y`, but carried by a
`Cvta` instruction, which the argument pass does not visit. -/
def kC4x : PTXKernel :=
  ⟨intDoubleArguments,
   [⟨Opcode.Cvta, false, AddressSpace.Generic, PTXOperand.register,
     ⟨AddressMode.Address, "y", 3, false, []⟩,
     PTXOperand.register, PTXOperand.register⟩],
   [], [], []⟩

/-- Claim C4 (amended): argument layout places arguments sequentially, each
padded to its own alignment before placement; `argumentSize` equals the sum
of the padded sizes; every `Address`-mode operand of a `Mov`, `Ld` or `St`
instruction whose identifier names a declared argument is rewritten so its
offset equals the argument's declared offset plus the operand's original
offset and is flagged as an argument (operands of other opcodes are not
rewritten by this pass); and an `int` argument followed by a `double`
argument yields offsets 0 and 8 and `argumentSize = 16`. -/
theorem claim_C4 (k : PTXKernel) :
    (setupArgumentMemoryReferences k).2 = sumPaddedSizes 0 k.arguments
    ∧ (∀ n oldi newi,
        k.instructions.get? n = some oldi →
        (setupArgumentMemoryReferences k).1.instructions.get? n = some newi →
        (oldi.opcode = Opcode.Mov ∨ oldi.opcode = Opcode.Ld ∨ oldi.opcode = Opcode.St) →
          argumentRewriteSpec (argumentOffsets k.arguments).1 oldi.d newi.d
          ∧ argumentRewriteSpec (argumentOffsets k.arguments).1 oldi.a newi.a
          ∧ argumentRewriteSpec (argumentOffsets k.arguments).1 oldi.b newi.b
          ∧ argumentRewriteSpec (argumentOffsets k.arguments).1 oldi.c newi.c)
    ∧ argumentOffsets intDoubleArguments = ([("x", 0), ("y", 8)], 16) := by
  refine ⟨?_, ?_, by decide⟩
  · show (argumentOffsets k.arguments).2 = _
    unfold argumentOffsets
    rw [argumentOffsetsAux_total]
    exact Nat.zero_add _
  · intro n oldi newi hold hnew hop
    have hmap :
        (setupArgumentMemoryReferences k).1.instructions.get? n
          = (k.instructions.get? n).map
              (argumentRewriteInstruction (argumentOffsets k.arguments).1) := by
      simp [setupArgumentMemoryReferences]
    rw [hmap, hold] at hnew
    have hnewi : newi = argumentRewriteInstruction (argumentOffsets k.arguments).1 oldi := by
      simpa using hnew.symm
    subst hnewi
    unfold argumentRewriteInstruction
    rw [if_pos hop]
    refine ⟨?_, ?_, ?_, ?_⟩ <;>
    · intro hmode o ho
      unfold argumentRewriteOperand
      rw [if_pos hmode, ho]
      exact ⟨rfl, rfl⟩

/-- Witness for claim C4: on `kC4w`, the `Ld` operand naming `y` (declared
offset 8, original offset 3) is rewritten to offset 11 and flagged. -/
theorem claim_C4_witness :
    iC4w'.a.offset = iC4w.a.offset + 8 ∧ iC4w'.a.isArgument = true :=
  ((claim_C4 kC4w).2.1 0 iC4w iC4w' rfl rfl
    (Or.inr (Or.inl rfl))).2.1 rfl 8 (by decide)

/-- Counterexample to claim C4 as stated: in `kC4x` the operand of the
`Cvta` instruction is `Address`-mode and names declared argument `y`
(declared offset 8), yet the pass leaves its offset at 3 (instead of
3 + 8 = 11) and does not flag it as an argument, because the rewrite loop
only visits `Mov`, `Ld` and `St` instructions. -/
theorem claim_C4_counterexample :
    assocLookup (argumentOffsets kC4x.arguments).1 "y" = some 8
    ∧ (setupArgumentMemoryReferences kC4x).1.instructions.map
        (fun i => (i.a.offset, i.a.isArgument)) = [(3, false)] := by
  exact ⟨by decide, by decide⟩

/-! ## Parameter layout (`setupParameterMemoryReferences`)

The first loop scans every `Call` instruction except the intrinsic
divergence marker `ptx.warp.divergent`; per call site the output
(`ptx.d.array`) and input (`ptx.b.array`) argument operands are packed
sequentially, each padded to the byte width of its scalar type, and
`metadata->parameterSize` accumulates the maximum packed size.  The source
asserts `offsets.count(argument->identifier) == 0` before every insertion,
modelled as `Except.error`. -/

def paramScanArgs : List CallArg → List (String × Nat) → Nat →
    Except String (List (String × Nat) × Nat)
  | [], offsets, offset => .ok (offsets, offset)
  | arg :: rest, offsets, offset =>
    if (assocLookup offsets arg.identifier).isSome then
      .error "assert failed: offsets.count(argument->identifier) == 0"
    else
      paramScanArgs rest (offsets ++ [(arg.identifier, pad offset arg.typeBytes)])
        (pad offset arg.typeBytes + arg.typeBytes)

/-- A call instruction scanned by parameter layout: opcode `Call` and not the
intrinsic divergence marker. -/
def isLayoutCall (i : PTXInstruction) : Bool :=
  decide (i.opcode = Opcode.Call ∧ i.a.identifier ≠ "ptx.warp.divergent")

def paramScanCalls : List PTXInstruction → List (String × Nat) → Nat →
    Except String (List (String × Nat) × Nat)
  | [], offsets, psize => .ok (offsets, psize)
  | i :: rest, offsets, psize =>
    if isLayoutCall i then
      match paramScanArgs (i.d.array ++ i.b.array) offsets 0 with
      | .error e => .error e
      | .ok (offsets2, offset) => paramScanCalls rest offsets2 (max offset psize)
    else paramScanCalls rest offsets psize

/-- Second loop: on `Mov`/`Ld`/`St` instructions, `Address`-mode operands
found in the parameter offset table get the mapped offset added and
`isArgument` cleared. -/
def paramRewriteOperand (offsets : List (String × Nat)) (op : PTXOperand) : PTXOperand :=
  if op.addressMode = AddressMode.Address then
    match assocLookup offsets op.identifier with
    | some o => { op with offset := op.offset + o, isArgument := false }
    | none => op
  else op

def paramRewriteInstruction (offsets : List (String × Nat))
    (i : PTXInstruction) : PTXInstruction :=
  if i.opcode = Opcode.Mov ∨ i.opcode = Opcode.Ld ∨ i.opcode = Opcode.St then
    { i with
      d := paramRewriteOperand offsets i.d
      a := paramRewriteOperand offsets i.a
      b := paramRewriteOperand offsets i.b
      c := paramRewriteOperand offsets i.c }
  else i

/-- Final loop: so a tail call can reuse the current stack frame, take the
maximum with every module function's declared-parameter packed size, where
each declared argument is padded to its own `getSize()`. -/
def declaredParamBytes (args : List Parameter) : Nat :=
  args.foldl (fun bytes arg => pad bytes arg.size + arg.size) 0

def moduleFunctionsMax : List ModuleFunction → Nat → Nat
  | [], psize => psize
  | f :: rest, psize =>
    if f.isFunction then
      moduleFunctionsMax rest (max (declaredParamBytes f.arguments) psize)
    else moduleFunctionsMax rest psize

def setupParameterMemoryReferences (k : PTXKernel) :
    Except String (PTXKernel × Nat) :=
  match paramScanCalls k.instructions [] 0 with
  | .error e => .error e
  | .ok (offsets, psize) =>
    .ok ({ k with instructions := k.instructions.map (paramRewriteInstruction offsets) },
      moduleFunctionsMax k.moduleFunctions psize)

/-! Specification-side descriptions of the quantities the pass computes. -/

/-- Packed size of one call site's argument list, accumulated from `offset`:
each argument padded to the byte width of its scalar type, then appended. -/
def packedCallArgsFrom (offset : Nat) : List CallArg → Nat
  | [] => offset
  | arg :: rest => packedCallArgsFrom (pad offset arg.typeBytes + arg.typeBytes) rest

def packedCallArgsSize (args : List CallArg) : Nat :=
  packedCallArgsFrom 0 args

/-- The packed argument sizes of the call sites parameter layout scans, in
order (intrinsic divergence-marker calls excluded). -/
def layoutCallSizes : List PTXInstruction → List Nat
  | [] => []
  | i :: rest =>
    if isLayoutCall i then
      packedCallArgsSize (i.d.array ++ i.b.array) :: layoutCallSizes rest
    else layoutCallSizes rest

/-- All identifiers appearing in the argument lists of the scanned call
sites, in scan order. -/
def callArgIds : List PTXInstruction → List String
  | [] => []
  | i :: rest =>
    if isLayoutCall i then
      ((i.d.array ++ i.b.array).map (·.identifier)) ++ callArgIds rest
    else callArgIds rest

def callArgIdentifiers (k : PTXKernel) : List String :=
  callArgIds k.instructions

/-- The declared-parameter packed sizes of the module's functions. -/
def declaredSizes : List ModuleFunction → List Nat
  | [] => []
  | f :: rest =>
    if f.isFunction then declaredParamBytes f.arguments :: declaredSizes rest
    else declaredSizes rest

def maxOf (l : List Nat) : Nat :=
  l.foldl (fun m x => max x m) 0

/-- `metadata->parameterSize` as the specification states it: the maximum
over (a) every scanned call site's packed argument size and (b) every module
function's declared-parameter packed size (0 when both sets are empty). -/
def parameterSizeSpec (k : PTXKernel) : Nat :=
  max (maxOf (layoutCallSizes k.instructions))
    (maxOf (declaredSizes k.moduleFunctions))

theorem foldl_max_shift (l : List Nat) :
    ∀ a : Nat, l.foldl (fun m x => max x m) a = max a (maxOf l) := by
  induction l with
  | nil => intro a; simp [maxOf]
  | cons x xs ih =>
    intro a
    simp only [maxOf, List.foldl_cons] at *
    rw [ih (max x a), ih (max x 0)]
    rw [Nat.max_comm x 0, Nat.zero_max]
    rw [Nat.max_comm x a, Nat.max_assoc]

theorem maxOf_cons (x : Nat) (l : List Nat) :
    maxOf (x :: l) = max x (maxOf l) := by
  show (x :: l).foldl (fun m x => max x m) 0 = _
  rw [List.foldl_cons, foldl_max_shift, Nat.max_comm x 0, Nat.zero_max]

theorem moduleFunctionsMax_spec (fs : List ModuleFunction) :
    ∀ psize : Nat, moduleFunctionsMax fs psize = max psize (maxOf (declaredSizes fs)) := by
  induction fs with
  | nil => intro psize; simp [moduleFunctionsMax, declaredSizes, maxOf]
  | cons f rest ih =>
    intro psize
    by_cases hf : f.isFunction
    · simp only [moduleFunctionsMax, declaredSizes, hf, if_pos]
      rw [ih, maxOf_cons]
      rw [Nat.max_comm (declaredParamBytes f.arguments) psize, Nat.max_assoc]
    · simp only [moduleFunctionsMax, declaredSizes, if_neg hf]
      exact ih psize

theorem paramScanArgs_ok_spec :
    ∀ (args : List CallArg) (offsets : List (String × Nat)) (offset : Nat) r,
      paramScanArgs args offsets offset = .ok r →
      r.2 = packedCallArgsFrom offset args
      ∧ keysOf r.1 = keysOf offsets ++ args.map (·.identifier) := by
  intro args
  induction args with
  | nil =>
    intro offsets offset r h
    simp only [paramScanArgs] at h
    obtain rfl : (offsets, offset) = r := by simpa using h
    simp [packedCallArgsFrom]
  | cons arg rest ih =>
    intro offsets offset r h
    simp only [paramScanArgs] at h
    by_cases hs : (assocLookup offsets arg.identifier).isSome
    · rw [if_pos hs] at h
      cases h
    · rw [if_neg hs] at h
      obtain ⟨h2, hk⟩ := ih _ _ _ h
      refine ⟨h2, ?_⟩
      rw [hk]
      simp [keysOf]

theorem paramScanArgs_ok_iff :
    ∀ (args : List CallArg) (offsets : List (String × Nat)) (offset : Nat),
      (∃ r, paramScanArgs args offsets offset = .ok r) ↔
        ((args.map (·.identifier)).Nodup
          ∧ ∀ x ∈ args.map (·.identifier), x ∉ keysOf offsets) := by
  intro args
  induction args with
  | nil => intro offsets offset; simp [paramScanArgs]
  | cons arg rest ih =>
    intro offsets offset
    simp only [paramScanArgs, List.map_cons, List.nodup_cons, List.mem_cons]
    by_cases hs : (assocLookup offsets arg.identifier).isSome
    · rw [if_pos hs]
      have hmem : arg.identifier ∈ keysOf offsets :=
        (assocLookup_isSome_iff_mem_keys _ _).mp hs
      constructor
      · rintro ⟨r, h⟩; cases h
      · rintro ⟨-, hall⟩
        exact absurd hmem (hall _ (Or.inl rfl))
    · rw [if_neg hs]
      have hmem : arg.identifier ∉ keysOf offsets := fun hm =>
        hs ((assocLookup_isSome_iff_mem_keys _ _).mpr hm)
      rw [ih]
      have hkeys :
          keysOf (offsets ++ [(arg.identifier, pad offset arg.typeBytes)])
            = keysOf offsets ++ [arg.identifier] := by
        simp [keysOf]
      rw [hkeys]
      constructor
      · rintro ⟨hnd, hall⟩
        refine ⟨⟨?_, hnd⟩, ?_⟩
        · intro hins
          have := hall _ hins
          simp at this
        · intro x hx
          rcases hx with hx | hx
          · subst hx; exact hmem
          · have := hall x hx
            simp at this
            exact this.1
      · rintro ⟨⟨hnotin, hnd⟩, hall⟩
        refine ⟨hnd, ?_⟩
        intro x hx
        simp only [List.mem_append, List.mem_singleton]
        rintro (hk | hk)
        · exact hall x (Or.inr hx) hk
        · subst hk; exact hnotin hx

theorem paramScanCalls_ok_spec :
    ∀ (instrs : List PTXInstruction) (offsets : List (String × Nat)) (psize : Nat) r,
      paramScanCalls instrs offsets psize = .ok r →
      r.2 = (layoutCallSizes instrs).foldl (fun m x => max x m) psize
      ∧ keysOf r.1 = keysOf offsets ++ callArgIds instrs := by
  intro instrs
  induction instrs with
  | nil =>
    intro offsets psize r h
    simp only [paramScanCalls] at h
    obtain rfl : (offsets, psize) = r := by simpa using h
    simp [layoutCallSizes, callArgIds]
  | cons i rest ih =>
    intro offsets psize r h
    simp only [paramScanCalls] at h
    by_cases hc : isLayoutCall i
    · rw [if_pos hc] at h
      cases harg : paramScanArgs (i.d.array ++ i.b.array) offsets 0 with
      | error e => rw [harg] at h; cases h
      | ok pr =>
        obtain ⟨offsets2, offset⟩ := pr
        rw [harg] at h
        obtain ⟨hoff, hkeys⟩ := paramScanArgs_ok_spec _ _ _ _ harg
        obtain ⟨h2, hk2⟩ := ih _ _ _ h
        constructor
        · rw [h2]
          simp only [layoutCallSizes, hc, if_pos, List.foldl_cons]
          rw [show offset = packedCallArgsSize (i.d.array ++ i.b.array) from hoff]
        · rw [hk2, hkeys]
          simp only [callArgIds, hc, if_pos]
          rw [List.append_assoc]
    · rw [if_neg hc] at h
      obtain ⟨h2, hk2⟩ := ih _ _ _ h
      constructor
      · rw [h2]; simp [layoutCallSizes, hc]
      · rw [hk2]; simp [callArgIds, hc]

theorem paramScanCalls_ok_iff :
    ∀ (instrs : List PTXInstruction) (offsets : List (String × Nat)) (psize : Nat),
      (∃ r, paramScanCalls instrs offsets psize = .ok r) ↔
        ((callArgIds instrs).Nodup
          ∧ ∀ x ∈ callArgIds instrs, x ∉ keysOf offsets) := by
  intro instrs
  induction instrs with
  | nil => intro offsets psize; simp [paramScanCalls, callArgIds]
  | cons i rest ih =>
    intro offsets psize
    simp only [paramScanCalls]
    by_cases hc : isLayoutCall i
    · rw [if_pos hc]
      simp only [callArgIds, hc, if_pos]
      cases harg : paramScanArgs (i.d.array ++ i.b.array) offsets 0 with
      | error e =>
        constructor
        · rintro ⟨r, h⟩; cases h
        · rintro ⟨hnd, hall⟩
          rw [List.nodup_append] at hnd
          have hargok : ∃ r, paramScanArgs (i.d.array ++ i.b.array) offsets 0 = .ok r := by
            rw [paramScanArgs_ok_iff]
            exact ⟨hnd.1, fun x hx => hall x (List.mem_append_left _ hx)⟩
          obtain ⟨r, hr⟩ := hargok
          rw [harg] at hr
          cases hr
      | ok pr =>
        obtain ⟨offsets2, offset⟩ := pr
        obtain ⟨-, hkeys⟩ := paramScanArgs_ok_spec _ _ _ _ harg
        have hargfacts :
            ((i.d.array ++ i.b.array).map (·.identifier)).Nodup
            ∧ ∀ x ∈ (i.d.array ++ i.b.array).map (·.identifier), x ∉ keysOf offsets := by
          rw [← paramScanArgs_ok_iff]
          exact ⟨_, harg⟩
        rw [ih]
        rw [hkeys]
        rw [List.nodup_append]
        constructor
        · rintro ⟨hnd, hall⟩
          have hdisj : (List.map (fun x => x.identifier) (i.d.array ++ i.b.array)).Disjoint
              (callArgIds rest) := by
            intro x hx hx'
            have := hall x hx'
            exact this (List.mem_append_right _ hx)
          refine ⟨⟨hargfacts.1, hnd, hdisj⟩, ?_⟩
          intro x hx
          rcases List.mem_append.mp hx with hx' | hx'
          · exact hargfacts.2 x hx'
          · have := hall x hx'
            intro hk
            exact this (List.mem_append_left _ hk)
        · rintro ⟨⟨-, hnd, hdisj⟩, hall⟩
          refine ⟨hnd, ?_⟩
          intro x hx hk
          rcases List.mem_append.mp hk with hk' | hk'
          · exact hall x (List.mem_append_right _ hx) hk'
          · exact hdisj hk' hx
    · rw [if_neg hc]
      simp only [callArgIds, if_neg hc]
      exact ih offsets psize

/-- Claim C5: on success, `parameterSize` is the maximum of every scanned
call site's packed argument size and every module function's
declared-parameter packed size, with intrinsic `ptx.warp.divergent` calls
excluded from the scan (see `isLayoutCall` inside `parameterSizeSpec`). -/
theorem claim_C5 (k k' : PTXKernel) (s : Nat)
    (h : setupParameterMemoryReferences k = .ok (k', s)) :
    s = parameterSizeSpec k := by
  unfold setupParameterMemoryReferences at h
  cases hscan : paramScanCalls k.instructions [] 0 with
  | error e => rw [hscan] at h; cases h
  | ok pr =>
    obtain ⟨offsets, psize⟩ := pr
    rw [hscan] at h
    simp only [Except.ok.injEq, Prod.mk.injEq] at h
    obtain ⟨-, hs⟩ := h
    obtain ⟨hps, -⟩ := paramScanCalls_ok_spec _ _ _ _ hscan
    rw [← hs, moduleFunctionsMax_spec]
    have : psize = maxOf (layoutCallSizes k.instructions) := hps
    rw [this]
    rfl

def kC5 : PTXKernel :=
  ⟨[],
   [⟨Opcode.Call, false, AddressSpace.Generic, PTXOperand.register,
     ⟨AddressMode.FunctionName, "f", 0, false, []⟩,
     ⟨AddressMode.Register, "", 0, false, [⟨"a0", 4⟩, ⟨"a1", 8⟩]⟩,
     PTXOperand.register⟩],
   [], [],
   [⟨true, [⟨"q", 20, 8⟩]⟩, ⟨false, [⟨"z", 100, 8⟩]⟩]⟩

/-- Witness for claim C5: in `kC5` the one call site packs to 16 bytes but a
module function declares 20 bytes of parameters, so `parameterSize` is 20. -/
theorem claim_C5_witness : (20 : Nat) = parameterSizeSpec kC5 :=
  claim_C5 kC5 kC5 20 rfl

/-- Claim C10: the parameter-layout pass succeeds exactly when the
identifiers of all scanned call argument operands are pairwise distinct;
a duplicated identifier fails the assertion (`Except.error`), and under
distinctness the assertion branch is unreachable. -/
theorem claim_C10 (k : PTXKernel) :
    (∃ r, setupParameterMemoryReferences k = .ok r)
      ↔ (callArgIdentifiers k).Nodup := by
  unfold callArgIdentifiers
  constructor
  · rintro ⟨r, h⟩
    unfold setupParameterMemoryReferences at h
    cases hscan : paramScanCalls k.instructions [] 0 with
    | error e => rw [hscan] at h; cases h
    | ok pr =>
      have hok : ∃ r, paramScanCalls k.instructions [] 0 = .ok r := ⟨pr, hscan⟩
      rw [paramScanCalls_ok_iff] at hok
      exact hok.1
  · intro hnd
    have hok : ∃ r, paramScanCalls k.instructions [] 0 = .ok r := by
      rw [paramScanCalls_ok_iff]
      exact ⟨hnd, by simp [keysOf]⟩
    obtain ⟨⟨offsets, psize⟩, hscan⟩ := hok
    refine ⟨({ k with instructions := k.instructions.map (paramRewriteInstruction offsets) },
      moduleFunctionsMax k.moduleFunctions psize), ?_⟩
    unfold setupParameterMemoryReferences
    rw [hscan]

/-- Two call sites, the second the intrinsic divergence marker: its argument
identifier duplicates one of the first call's, but it is excluded from the
scan, so layout still succeeds. -/
def kC10 : PTXKernel :=
  ⟨[],
   [⟨Opcode.Call, false, AddressSpace.Generic, PTXOperand.register,
     ⟨AddressMode.FunctionName, "g", 0, false, []⟩,
     ⟨AddressMode.Register, "", 0, false, [⟨"q0", 4⟩, ⟨"q1", 8⟩]⟩,
     PTXOperand.register⟩,
    ⟨Opcode.Call, false, AddressSpace.Generic, PTXOperand.register,
     ⟨AddressMode.FunctionName, "ptx.warp.divergent", 0, false, []⟩,
     ⟨AddressMode.Register, "", 0, false, [⟨"q0", 4⟩]⟩,
     PTXOperand.register⟩],
   [], [], []⟩

theorem claim_C10_witness :
    ∃ r, setupParameterMemoryReferences kC10 = .ok r :=
  (claim_C10 kC10).mpr (by decide)

/-! Re-running parameter layout (claim C9).  The rewrite loop mutates operand
offsets in place, so a second run over the pass's own output adds every
mapped offset a second time; only `parameterSize` is reproduced. -/

theorem paramRewriteOperand_identifier (offsets : List (String × Nat)) (op : PTXOperand) :
    (paramRewriteOperand offsets op).identifier = op.identifier := by
  unfold paramRewriteOperand
  by_cases h : op.addressMode = AddressMode.Address
  · rw [if_pos h]
    cases assocLookup offsets op.identifier <;> rfl
  · rw [if_neg h]

theorem paramRewriteInstruction_opcode (offsets : List (String × Nat)) (i : PTXInstruction) :
    (paramRewriteInstruction offsets i).opcode = i.opcode := by
  unfold paramRewriteInstruction
  split <;> rfl

theorem paramRewriteInstruction_a_identifier (offsets : List (String × Nat))
    (i : PTXInstruction) :
    (paramRewriteInstruction offsets i).a.identifier = i.a.identifier := by
  unfold paramRewriteInstruction
  split
  · exact paramRewriteOperand_identifier offsets i.a
  · rfl

theorem paramRewriteInstruction_call (offsets : List (String × Nat)) (i : PTXInstruction)
    (h : i.opcode = Opcode.Call) :
    paramRewriteInstruction offsets i = i := by
  unfold paramRewriteInstruction
  rw [if_neg]
  rintro (h' | h' | h') <;> rw [h] at h' <;> cases h'

theorem isLayoutCall_rewrite (offsets : List (String × Nat)) (i : PTXInstruction) :
    isLayoutCall (paramRewriteInstruction offsets i) = isLayoutCall i := by
  unfold isLayoutCall
  rw [paramRewriteInstruction_opcode, paramRewriteInstruction_a_identifier]

theorem paramScanCalls_map_rewrite (offsets0 : List (String × Nat)) :
    ∀ (instrs : List PTXInstruction) (offsets : List (String × Nat)) (psize : Nat),
      paramScanCalls (instrs.map (paramRewriteInstruction offsets0)) offsets psize
        = paramScanCalls instrs offsets psize := by
  intro instrs
  induction instrs with
  | nil => intro offsets psize; rfl
  | cons i rest ih =>
    intro offsets psize
    simp only [List.map_cons, paramScanCalls, isLayoutCall_rewrite]
    by_cases hc : isLayoutCall i
    · rw [if_pos hc, if_pos hc]
      have hcall : i.opcode = Opcode.Call := by
        unfold isLayoutCall at hc
        exact (of_decide_eq_true hc).1
      rw [paramRewriteInstruction_call offsets0 i hcall]
      cases paramScanArgs (i.d.array ++ i.b.array) offsets 0 with
      | error e => rfl
      | ok pr =>
        obtain ⟨offsets2, offset⟩ := pr
        exact ih offsets2 (max offset psize)
    · rw [if_neg hc, if_neg hc]
      exact ih offsets psize

/-- Claim C9 (amended): re-running the parameter-layout pass on its own
output succeeds and reproduces the same `parameterSize`; the operand offsets
are not reproduced in general (see the counterexample), because the rewrite
adds each mapped offset again. -/
theorem claim_C9 (k k1 : PTXKernel) (s1 : Nat)
    (h : setupParameterMemoryReferences k = .ok (k1, s1)) :
    ∃ k2, setupParameterMemoryReferences k1 = .ok (k2, s1) := by
  unfold setupParameterMemoryReferences at h
  cases hscan : paramScanCalls k.instructions [] 0 with
  | error e => rw [hscan] at h; cases h
  | ok pr =>
    obtain ⟨offsets, psize⟩ := pr
    rw [hscan] at h
    simp only [Except.ok.injEq, Prod.mk.injEq] at h
    obtain ⟨hk1, hs1⟩ := h
    have hinstr : k1.instructions = k.instructions.map (paramRewriteInstruction offsets) := by
      rw [← hk1]
    have hfs : k1.moduleFunctions = k.moduleFunctions := by
      rw [← hk1]
    have hscan1 : paramScanCalls k1.instructions [] 0 = .ok (offsets, psize) := by
      rw [hinstr, paramScanCalls_map_rewrite, hscan]
    refine ⟨{ k1 with instructions := k1.instructions.map (paramRewriteInstruction offsets) }, ?_⟩
    have hstep : setupParameterMemoryReferences k1
        = .ok ({ k1 with instructions := k1.instructions.map (paramRewriteInstruction offsets) },
            moduleFunctionsMax k1.moduleFunctions psize) := by
      unfold setupParameterMemoryReferences
      rw [hscan1]
    rw [hstep, hfs, hs1]

def iC9call : PTXInstruction :=
  ⟨Opcode.Call, false, AddressSpace.Generic, PTXOperand.register,
   ⟨AddressMode.FunctionName, "callee", 0, false, []⟩,
   ⟨AddressMode.Register, "", 0, false, [⟨"p0", 4⟩, ⟨"p1", 4⟩]⟩,
   PTXOperand.register⟩

def iC9ld (off : Nat) : PTXInstruction :=
  ⟨Opcode.Ld, false, AddressSpace.Generic, PTXOperand.register,
   ⟨AddressMode.Address, "p1", off, false, []⟩,
   PTXOperand.register, PTXOperand.register⟩

def kC9 : PTXKernel := ⟨[], [iC9call, iC9ld 0], [], [], []⟩

def kC9r1 : PTXKernel := ⟨[], [iC9call, iC9ld 4], [], [], []⟩

def kC9r2 : PTXKernel := ⟨[], [iC9call, iC9ld 8], [], [], []⟩

theorem claim_C9_witness :
    ∃ k2, setupParameterMemoryReferences kC9r1 = .ok (k2, 8) :=
  claim_C9 kC9 kC9r1 8 rfl

/-- Counterexample to claim C9 as stated: re-running the pass on the
unchanged (in-memory) subkernel `kC9r1` produced by the first run yields the
same `parameterSize` 8, but the `Ld` operand mapped to parameter offset 4 is
moved from offset 4 to offset 8 — the operand offsets of the first run are
not reproduced. -/
theorem claim_C9_counterexample :
    setupParameterMemoryReferences kC9 = .ok (kC9r1, 8)
    ∧ setupParameterMemoryReferences kC9r1 = .ok (kC9r2, 8)
    ∧ kC9r1.instructions.map (fun i => i.a.offset) = [0, 4]
    ∧ kC9r2.instructions.map (fun i => i.a.offset) = [0, 8]
    ∧ kC9r1 ≠ kC9r2 :=
  ⟨rfl, rfl, rfl, rfl, by decide⟩

/-! ## Shared-memory layout (`setupSharedMemoryReferences`)

Module globals tagged `Shared` and kernel locals in `Shared` space are
scanned in order.  `Extern` entries are collected into a name set (a
duplicate name fails an assertion) and only raise the external alignment —
the maximum of 1 and every external entry's declared alignment and element
byte width.  Non-external entries are packed sequentially into
`metadata->sharedSize`.  After the operand scan the region size is padded to
the external alignment, and each operand that referenced an external entry
gets that post-pad size added to its offset.  The source defers this last
addition through a collected pointer list; since the operand scan never
changes `sharedSize`, applying the post-pad size directly in the rewrite is
equivalent. -/

structure SharedScanState where
  offsets : List (String × Nat)
  extNames : List String
  extAlignment : Nat
  sharedSize : Nat
  deriving DecidableEq

def sharedScanGlobals : List GlobalVariable → SharedScanState →
    Except String SharedScanState
  | [], st => .ok st
  | g :: rest, st =>
    if g.directive = Directive.Shared then
      if g.attr = VarAttr.Ext then
        if g.name ∈ st.extNames then
          .error "assert failed: external global declared more than once"
        else
          sharedScanGlobals rest
            { st with
              extNames := st.extNames ++ [g.name]
              extAlignment := max (max st.extAlignment g.alignment) g.typeBytes }
      else
        sharedScanGlobals rest
          { st with
            offsets := st.offsets ++ [(g.name, pad st.sharedSize g.alignment)]
            sharedSize := pad st.sharedSize g.alignment + g.bytes }
    else sharedScanGlobals rest st

def sharedScanLocals : List LocalVariable → SharedScanState →
    Except String SharedScanState
  | [], st => .ok st
  | l :: rest, st =>
    if l.space = AddressSpace.Shared then
      if l.attr = VarAttr.Ext then
        if l.name ∈ st.extNames then
          .error "assert failed: external shared local declared more than once"
        else
          sharedScanLocals rest
            { st with
              extNames := st.extNames ++ [l.name]
              extAlignment := max (max st.extAlignment l.alignment) l.typeBytes }
      else
        sharedScanLocals rest
          { st with
            offsets := st.offsets ++ [(l.name, pad st.sharedSize l.alignment)]
            sharedSize := pad st.sharedSize l.alignment + l.size }
    else sharedScanLocals rest st

def sharedRewriteOperand (ext : List String) (offsets : List (String × Nat))
    (finalSize : Nat) (op : PTXOperand) : PTXOperand :=
  if op.addressMode = AddressMode.Address then
    if op.identifier ∈ ext then { op with offset := op.offset + finalSize }
    else
      match assocLookup offsets op.identifier with
      | some o => { op with offset := op.offset + o }
      | none => op
  else op

/-- Whether an operand matches a non-external shared entry, which makes the
enclosing instruction's address space `Shared`. -/
def sharedOperandHit (ext : List String) (offsets : List (String × Nat))
    (op : PTXOperand) : Bool :=
  decide (op.addressMode = AddressMode.Address ∧ op.identifier ∉ ext
    ∧ (assocLookup offsets op.identifier).isSome)

def sharedRewriteInstruction (ext : List String) (offsets : List (String × Nat))
    (finalSize : Nat) (i : PTXInstruction) : PTXInstruction :=
  if i.opcode = Opcode.Mov ∨ i.opcode = Opcode.Ld ∨ i.opcode = Opcode.St
      ∨ i.opcode = Opcode.Cvta then
    { i with
      addressSpace :=
        if sharedOperandHit ext offsets i.d ∨ sharedOperandHit ext offsets i.a
            ∨ sharedOperandHit ext offsets i.b ∨ sharedOperandHit ext offsets i.c then
          AddressSpace.Shared
        else i.addressSpace
      d := sharedRewriteOperand ext offsets finalSize i.d
      a := sharedRewriteOperand ext offsets finalSize i.a
      b := sharedRewriteOperand ext offsets finalSize i.b
      c := sharedRewriteOperand ext offsets finalSize i.c }
  else i

def setupSharedMemoryReferences (k : PTXKernel) : Except String (PTXKernel × Nat) :=
  match sharedScanGlobals k.globals ⟨[], [], 1, 0⟩ with
  | .error e => .error e
  | .ok st1 =>
    match sharedScanLocals k.locals st1 with
    | .error e => .error e
    | .ok st2 =>
      let finalSize := pad st2.sharedSize st2.extAlignment
      .ok ({ k with instructions :=
          k.instructions.map (sharedRewriteInstruction st2.extNames st2.offsets finalSize) },
        finalSize)

/-! Specification-side descriptions. -/

def extNamesOfGlobals : List GlobalVariable → List String
  | [] => []
  | g :: rest =>
    if g.directive = Directive.Shared ∧ g.attr = VarAttr.Ext then
      g.name :: extNamesOfGlobals rest
    else extNamesOfGlobals rest

def extNamesOfLocals : List LocalVariable → List String
  | [] => []
  | l :: rest =>
    if l.space = AddressSpace.Shared ∧ l.attr = VarAttr.Ext then
      l.name :: extNamesOfLocals rest
    else extNamesOfLocals rest

/-- The names of a subkernel's external shared declarations, in scan order
(module globals first, then kernel locals). -/
def sharedExtNames (k : PTXKernel) : List String :=
  extNamesOfGlobals k.globals ++ extNamesOfLocals k.locals

def extAlignOfGlobals : List GlobalVariable → Nat → Nat
  | [], a => a
  | g :: rest, a =>
    if g.directive = Directive.Shared ∧ g.attr = VarAttr.Ext then
      extAlignOfGlobals rest (max (max a g.alignment) g.typeBytes)
    else extAlignOfGlobals rest a

def extAlignOfLocals : List LocalVariable → Nat → Nat
  | [], a => a
  | l :: rest, a =>
    if l.space = AddressSpace.Shared ∧ l.attr = VarAttr.Ext then
      extAlignOfLocals rest (max (max a l.alignment) l.typeBytes)
    else extAlignOfLocals rest a

/-- The external alignment: the maximum of 1 and every external shared
entry's declared alignment and element byte width. -/
def extAlignSpec (k : PTXKernel) : Nat :=
  extAlignOfLocals k.locals (extAlignOfGlobals k.globals 1)

/-- What the shared pass does to an operand referencing an external shared
entry: the post-pad region size is added to its offset. -/
def sharedExtRewriteSpec (ext : List String) (finalSize : Nat)
    (old new : PTXOperand) : Prop :=
  old.addressMode = AddressMode.Address → old.identifier ∈ ext →
    new.offset = old.offset + finalSize

theorem sharedScanGlobals_ok_spec :
    ∀ (gs : List GlobalVariable) (st st' : SharedScanState),
      sharedScanGlobals gs st = .ok st' →
      st'.extNames = st.extNames ++ extNamesOfGlobals gs
      ∧ st'.extAlignment = extAlignOfGlobals gs st.extAlignment := by
  intro gs
  induction gs with
  | nil =>
    intro st st' h
    simp only [sharedScanGlobals] at h
    obtain rfl : st = st' := by simpa using h
    simp [extNamesOfGlobals, extAlignOfGlobals]
  | cons g rest ih =>
    intro st st' h
    simp only [sharedScanGlobals] at h
    by_cases hdir : g.directive = Directive.Shared
    · rw [if_pos hdir] at h
      by_cases hattr : g.attr = VarAttr.Ext
      · rw [if_pos hattr] at h
        by_cases hmem : g.name ∈ st.extNames
        · rw [if_pos hmem] at h; cases h
        · rw [if_neg hmem] at h
          obtain ⟨h1, h2⟩ := ih _ _ h
          simp only [extNamesOfGlobals, extAlignOfGlobals, hdir, hattr, and_self, if_pos]
          rw [h1, h2]
          simp
      · rw [if_neg hattr] at h
        obtain ⟨h1, h2⟩ := ih _ _ h
        have hcond : ¬(g.directive = Directive.Shared ∧ g.attr = VarAttr.Ext) := by
          rintro ⟨-, hc⟩; exact hattr hc
        simp only [extNamesOfGlobals, extAlignOfGlobals, if_neg hcond]
        exact ⟨h1, h2⟩
    · rw [if_neg hdir] at h
      obtain ⟨h1, h2⟩ := ih _ _ h
      have hcond : ¬(g.directive = Directive.Shared ∧ g.attr = VarAttr.Ext) := by
        rintro ⟨hc, -⟩; exact hdir hc
      simp only [extNamesOfGlobals, extAlignOfGlobals, if_neg hcond]
      exact ⟨h1, h2⟩

theorem sharedScanLocals_ok_spec :
    ∀ (ls : List LocalVariable) (st st' : SharedScanState),
      sharedScanLocals ls st = .ok st' →
      st'.extNames = st.extNames ++ extNamesOfLocals ls
      ∧ st'.extAlignment = extAlignOfLocals ls st.extAlignment := by
  intro ls
  induction ls with
  | nil =>
    intro st st' h
    simp only [sharedScanLocals] at h
    obtain rfl : st = st' := by simpa using h
    simp [extNamesOfLocals, extAlignOfLocals]
  | cons l rest ih =>
    intro st st' h
    simp only [sharedScanLocals] at h
    by_cases hdir : l.space = AddressSpace.Shared
    · rw [if_pos hdir] at h
      by_cases hattr : l.attr = VarAttr.Ext
      · rw [if_pos hattr] at h
        by_cases hmem : l.name ∈ st.extNames
        · rw [if_pos hmem] at h; cases h
        · rw [if_neg hmem] at h
          obtain ⟨h1, h2⟩ := ih _ _ h
          simp only [extNamesOfLocals, extAlignOfLocals, hdir, hattr, and_self, if_pos]
          rw [h1, h2]
          simp
      · rw [if_neg hattr] at h
        obtain ⟨h1, h2⟩ := ih _ _ h
        have hcond : ¬(l.space = AddressSpace.Shared ∧ l.attr = VarAttr.Ext) := by
          rintro ⟨-, hc⟩; exact hattr hc
        simp only [extNamesOfLocals, extAlignOfLocals, if_neg hcond]
        exact ⟨h1, h2⟩
    · rw [if_neg hdir] at h
      obtain ⟨h1, h2⟩ := ih _ _ h
      have hcond : ¬(l.space = AddressSpace.Shared ∧ l.attr = VarAttr.Ext) := by
        rintro ⟨hc, -⟩; exact hdir hc
      simp only [extNamesOfLocals, extAlignOfLocals, if_neg hcond]
      exact ⟨h1, h2⟩

theorem sharedScanGlobals_ok_iff :
    ∀ (gs : List GlobalVariable) (st : SharedScanState),
      (∃ st', sharedScanGlobals gs st = .ok st') ↔
        ((extNamesOfGlobals gs).Nodup
          ∧ ∀ x ∈ extNamesOfGlobals gs, x ∉ st.extNames) := by
  intro gs
  induction gs with
  | nil => intro st; simp [sharedScanGlobals, extNamesOfGlobals]
  | cons g rest ih =>
    intro st
    simp only [sharedScanGlobals]
    by_cases hdir : g.directive = Directive.Shared
    · rw [if_pos hdir]
      by_cases hattr : g.attr = VarAttr.Ext
      · rw [if_pos hattr]
        have hcond : (g.directive = Directive.Shared ∧ g.attr = VarAttr.Ext) :=
          ⟨hdir, hattr⟩
        simp only [extNamesOfGlobals, if_pos hcond, List.nodup_cons, List.mem_cons]
        by_cases hmem : g.name ∈ st.extNames
        · rw [if_pos hmem]
          constructor
          · rintro ⟨st', h⟩; cases h
          · rintro ⟨-, hall⟩
            exact absurd hmem (hall _ (Or.inl rfl))
        · rw [if_neg hmem]
          rw [ih]
          constructor
          · rintro ⟨hnd, hall⟩
            refine ⟨⟨?_, hnd⟩, ?_⟩
            · intro hins
              have := hall _ hins
              simp at this
            · intro x hx
              rcases hx with hx | hx
              · subst hx; exact hmem
              · have := hall x hx
                simp at this
                exact this.1
          · rintro ⟨⟨hnotin, hnd⟩, hall⟩
            refine ⟨hnd, ?_⟩
            intro x hx
            simp only [List.mem_append, List.mem_singleton]
            rintro (hk | hk)
            · exact hall x (Or.inr hx) hk
            · subst hk; exact hnotin hx
      · rw [if_neg hattr]
        have hcond : ¬(g.directive = Directive.Shared ∧ g.attr = VarAttr.Ext) := by
          rintro ⟨-, hc⟩; exact hattr hc
        simp only [extNamesOfGlobals, if_neg hcond]
        exact ih _
    · rw [if_neg hdir]
      have hcond : ¬(g.directive = Directive.Shared ∧ g.attr = VarAttr.Ext) := by
        rintro ⟨hc, -⟩; exact hdir hc
      simp only [extNamesOfGlobals, if_neg hcond]
      exact ih _

theorem sharedScanLocals_ok_iff :
    ∀ (ls : List LocalVariable) (st : SharedScanState),
      (∃ st', sharedScanLocals ls st = .ok st') ↔
        ((extNamesOfLocals ls).Nodup
          ∧ ∀ x ∈ extNamesOfLocals ls, x ∉ st.extNames) := by
  intro ls
  induction ls with
  | nil => intro st; simp [sharedScanLocals, extNamesOfLocals]
  | cons l rest ih =>
    intro st
    simp only [sharedScanLocals]
    by_cases hdir : l.space = AddressSpace.Shared
    · rw [if_pos hdir]
      by_cases hattr : l.attr = VarAttr.Ext
      · rw [if_pos hattr]
        have hcond : (l.space = AddressSpace.Shared ∧ l.attr = VarAttr.Ext) :=
          ⟨hdir, hattr⟩
        simp only [extNamesOfLocals, if_pos hcond, List.nodup_cons, List.mem_cons]
        by_cases hmem : l.name ∈ st.extNames
        · rw [if_pos hmem]
          constructor
          · rintro ⟨st', h⟩; cases h
          · rintro ⟨-, hall⟩
            exact absurd hmem (hall _ (Or.inl rfl))
        · rw [if_neg hmem]
          rw [ih]
          constructor
          · rintro ⟨hnd, hall⟩
            refine ⟨⟨?_, hnd⟩, ?_⟩
            · intro hins
              have := hall _ hins
              simp at this
            · intro x hx
              rcases hx with hx | hx
              · subst hx; exact hmem
              · have := hall x hx
                simp at this
                exact this.1
          · rintro ⟨⟨hnotin, hnd⟩, hall⟩
            refine ⟨hnd, ?_⟩
            intro x hx
            simp only [List.mem_append, List.mem_singleton]
            rintro (hk | hk)
            · exact hall x (Or.inr hx) hk
            · subst hk; exact hnotin hx
      · rw [if_neg hattr]
        have hcond : ¬(l.space = AddressSpace.Shared ∧ l.attr = VarAttr.Ext) := by
          rintro ⟨-, hc⟩; exact hattr hc
        simp only [extNamesOfLocals, if_neg hcond]
        exact ih _
    · rw [if_neg hdir]
      have hcond : ¬(l.space = AddressSpace.Shared ∧ l.attr = VarAttr.Ext) := by
        rintro ⟨hc, -⟩; exact hdir hc
      simp only [extNamesOfLocals, if_neg hcond]
      exact ih _

theorem extAlignOfGlobals_ge (gs : List GlobalVariable) :
    ∀ a : Nat, a ≤ extAlignOfGlobals gs a := by
  induction gs with
  | nil => intro a; simp [extAlignOfGlobals]
  | cons g rest ih =>
    intro a
    by_cases hc : g.directive = Directive.Shared ∧ g.attr = VarAttr.Ext
    · simp only [extAlignOfGlobals, if_pos hc]
      exact le_trans (le_trans (le_max_left _ _) (le_max_left _ _)) (ih _)
    · simp only [extAlignOfGlobals, if_neg hc]
      exact ih a

theorem extAlignOfLocals_ge (ls : List LocalVariable) :
    ∀ a : Nat, a ≤ extAlignOfLocals ls a := by
  induction ls with
  | nil => intro a; simp [extAlignOfLocals]
  | cons l rest ih =>
    intro a
    by_cases hc : l.space = AddressSpace.Shared ∧ l.attr = VarAttr.Ext
    · simp only [extAlignOfLocals, if_pos hc]
      exact le_trans (le_trans (le_max_left _ _) (le_max_left _ _)) (ih _)
    · simp only [extAlignOfLocals, if_neg hc]
      exact ih a

theorem extAlignSpec_pos (k : PTXKernel) : 0 < extAlignSpec k :=
  lt_of_lt_of_le Nat.zero_lt_one
    (le_trans (extAlignOfGlobals_ge k.globals 1) (extAlignOfLocals_ge k.locals _))

/-- Claim C6: a duplicated external shared name is rejected as a fatal
error; otherwise the pass succeeds, the final `sharedSize` (the region size
after all non-external entries are packed, padded to the external alignment)
is a multiple of the external alignment, and every operand of a scanned
instruction that references an external shared entry is rewritten to start
at that post-pad offset. -/
theorem claim_C6 (k : PTXKernel) :
    (¬ (sharedExtNames k).Nodup → ∃ e, setupSharedMemoryReferences k = .error e)
    ∧ ((sharedExtNames k).Nodup →
        ∃ k' finalSize, setupSharedMemoryReferences k = .ok (k', finalSize)
          ∧ finalSize % extAlignSpec k = 0
          ∧ ∀ n oldi newi,
              k.instructions.get? n = some oldi →
              k'.instructions.get? n = some newi →
              (oldi.opcode = Opcode.Mov ∨ oldi.opcode = Opcode.Ld
                ∨ oldi.opcode = Opcode.St ∨ oldi.opcode = Opcode.Cvta) →
                sharedExtRewriteSpec (sharedExtNames k) finalSize oldi.d newi.d
                ∧ sharedExtRewriteSpec (sharedExtNames k) finalSize oldi.a newi.a
                ∧ sharedExtRewriteSpec (sharedExtNames k) finalSize oldi.b newi.b
                ∧ sharedExtRewriteSpec (sharedExtNames k) finalSize oldi.c newi.c) := by
  constructor
  · intro hnnd
    cases hres : setupSharedMemoryReferences k with
    | error e => exact ⟨e, rfl⟩
    | ok r =>
      exfalso
      unfold setupSharedMemoryReferences at hres
      cases hg : sharedScanGlobals k.globals ⟨[], [], 1, 0⟩ with
      | error e => simp [hg] at hres
      | ok st1 =>
        simp only [hg] at hres
        cases hl : sharedScanLocals k.locals st1 with
        | error e => simp [hl] at hres
        | ok st2 =>
          have hgf := (sharedScanGlobals_ok_iff k.globals ⟨[], [], 1, 0⟩).mp ⟨st1, hg⟩
          obtain ⟨hg1, -⟩ := sharedScanGlobals_ok_spec _ _ _ hg
          have hlf := (sharedScanLocals_ok_iff k.locals st1).mp ⟨st2, hl⟩
          apply hnnd
          rw [sharedExtNames, List.nodup_append]
          refine ⟨hgf.1, hlf.1, ?_⟩
          intro x hxg hxl
          exact hlf.2 x hxl (by rw [hg1]; simpa using hxg)
  · intro hnd
    obtain ⟨hndG, hndL, hdisj⟩ := List.nodup_append.mp hnd
    obtain ⟨st1, hg⟩ : ∃ st1, sharedScanGlobals k.globals ⟨[], [], 1, 0⟩ = .ok st1 := by
      rw [sharedScanGlobals_ok_iff]
      exact ⟨hndG, by simp⟩
    obtain ⟨hg1, hg2⟩ := sharedScanGlobals_ok_spec _ _ _ hg
    obtain ⟨st2, hl⟩ : ∃ st2, sharedScanLocals k.locals st1 = .ok st2 := by
      rw [sharedScanLocals_ok_iff]
      refine ⟨hndL, ?_⟩
      intro x hx
      rw [hg1]
      simp only [List.nil_append]
      exact fun hxg => hdisj hxg hx
    obtain ⟨hl1, hl2⟩ := sharedScanLocals_ok_spec _ _ _ hl
    have hnames : st2.extNames = sharedExtNames k := by
      rw [hl1, hg1]
      simp [sharedExtNames]
    have halign : st2.extAlignment = extAlignSpec k := by
      rw [hl2, hg2]
      rfl
    refine ⟨{ k with instructions :=
        k.instructions.map (sharedRewriteInstruction st2.extNames st2.offsets
          (pad st2.sharedSize st2.extAlignment)) },
      pad st2.sharedSize st2.extAlignment, ?_, ?_, ?_⟩
    · simp only [setupSharedMemoryReferences, hg, hl]
    · rw [halign]
      exact pad_mod _ _ (extAlignSpec_pos k)
    · intro n oldi newi hold hnew hop
      rw [show ({ k with instructions :=
            k.instructions.map (sharedRewriteInstruction st2.extNames st2.offsets
              (pad st2.sharedSize st2.extAlignment)) } : PTXKernel).instructions
          = k.instructions.map (sharedRewriteInstruction st2.extNames st2.offsets
              (pad st2.sharedSize st2.extAlignment)) from rfl,
        List.get?_map, hold] at hnew
      have hnewi : newi = sharedRewriteInstruction st2.extNames st2.offsets
          (pad st2.sharedSize st2.extAlignment) oldi := by
        simpa using hnew.symm
      subst hnewi
      unfold sharedRewriteInstruction
      rw [if_pos hop]
      refine ⟨?_, ?_, ?_, ?_⟩ <;>
      · intro hmode hmem
        rw [← hnames] at hmem
        show (sharedRewriteOperand st2.extNames st2.offsets
          (pad st2.sharedSize st2.extAlignment) _).offset = _
        unfold sharedRewriteOperand
        rw [if_pos hmode, if_pos hmem]

/-- A module with one external shared declaration (alignment 8) and one
6-byte non-external shared variable; the `Ld` references the external
entry.  The packed non-external size 6 pads to 8 = the external alignment. -/
def kC6 : PTXKernel :=
  ⟨[],
   [⟨Opcode.Ld, false, AddressSpace.Generic, PTXOperand.register,
     ⟨AddressMode.Address, "esh", 0, false, []⟩,
     PTXOperand.register, PTXOperand.register⟩],
   [⟨"esh", Directive.Shared, VarAttr.Ext, 8, 4, 0⟩,
    ⟨"sh", Directive.Shared, VarAttr.NoAttr, 4, 4, 6⟩],
   [], []⟩

theorem claim_C6_witness :
    ∃ k' finalSize, setupSharedMemoryReferences kC6 = .ok (k', finalSize)
      ∧ finalSize % extAlignSpec kC6 = 0
      ∧ ∀ n oldi newi,
          kC6.instructions.get? n = some oldi →
          k'.instructions.get? n = some newi →
          (oldi.opcode = Opcode.Mov ∨ oldi.opcode = Opcode.Ld
            ∨ oldi.opcode = Opcode.St ∨ oldi.opcode = Opcode.Cvta) →
            sharedExtRewriteSpec (sharedExtNames kC6) finalSize oldi.d newi.d
            ∧ sharedExtRewriteSpec (sharedExtNames kC6) finalSize oldi.a newi.a
            ∧ sharedExtRewriteSpec (sharedExtNames kC6) finalSize oldi.b newi.b
            ∧ sharedExtRewriteSpec (sharedExtNames kC6) finalSize oldi.c newi.c :=
  (claim_C6 kC6).2 (by decide)

/-! ## Local-memory layout (`setupLocalMemoryReferences`)

Reserved slots first: the barrier-resume continuation slot
`_Zocelot_barrier_next_kernel` (only when the subkernel declares such a
`Local`-space local), then `_Zocelot_resume_status` and
`_Zocelot_resume_point`, each of `sizeof(int)` = 4 bytes on the source's
targets.  The general scan then places every other `Local`-space declaration,
an excluded-name list guarding the reserved slots, and the spill area
`_Zocelot_spill_area` is deferred to the very end.  Entries carry
(name, offset, size); the source's offset map stores name → offset only, the
size is carried along to state extent properties about the layout. -/

def barrierName : String := "_Zocelot_barrier_next_kernel"

def spillName : String := "_Zocelot_spill_area"

def reservedLocalNames : List String :=
  ["_Zocelot_barrier_next_kernel", "_Zocelot_spill_area",
   "_Zocelot_resume_point", "_Zocelot_resume_status"]

def entryEnd (e : String × Nat × Nat) : Nat := e.2.1 + e.2.2

def localScanOrdinary : List LocalVariable → List (String × Nat × Nat) → Nat →
    List (String × Nat × Nat) × Nat
  | [], entries, size => (entries, size)
  | l :: rest, entries, size =>
    if l.name ∈ reservedLocalNames then localScanOrdinary rest entries size
    else if l.space = AddressSpace.Local then
      localScanOrdinary rest (entries ++ [(l.name, pad size l.alignment, l.size)])
        (pad size l.alignment + l.size)
    else localScanOrdinary rest entries size

/-- Placement of the optional barrier-resume slot, given the result of the
`find?` over `kernel.locals`. -/
def localBarrierStep : Option LocalVariable → List (String × Nat × Nat) × Nat
  | some l =>
    if l.space = AddressSpace.Local then
      ([(barrierName, pad 0 l.alignment, l.size)], pad 0 l.alignment + l.size)
    else ([], 0)
  | none => ([], 0)

/-- The reserved slots: optional barrier-resume slot, then the resume-status
and resume-point words. -/
def localReserved (k : PTXKernel) : List (String × Nat × Nat) × Nat :=
  let step0 := localBarrierStep (k.locals.find? (fun l => l.name = barrierName))
  let step1 := (step0.1 ++ [("_Zocelot_resume_status", pad step0.2 4, 4)], pad step0.2 4 + 4)
  (step1.1 ++ [("_Zocelot_resume_point", pad step1.2 4, 4)], pad step1.2 4 + 4)

/-- Deferred placement of the spill area, given the result of the `find?`
over `kernel.locals`. -/
def localSpillStep : Option LocalVariable → List (String × Nat × Nat) × Nat →
    List (String × Nat × Nat) × Nat
  | some l, acc =>
    if l.space = AddressSpace.Local then
      (acc.1 ++ [(spillName, pad acc.2 l.alignment, l.size)],
        pad acc.2 l.alignment + l.size)
    else acc
  | none, acc => acc

/-- The general scan followed by the deferred spill area. -/
def localFinish (k : PTXKernel) (acc : List (String × Nat × Nat) × Nat) :
    List (String × Nat × Nat) × Nat :=
  localSpillStep (k.locals.find? (fun l => l.name = spillName))
    (localScanOrdinary k.locals acc.1 acc.2)

def localLayout (k : PTXKernel) : List (String × Nat × Nat) × Nat :=
  localFinish k (localReserved k)

def lookupEntryOffset (entries : List (String × Nat × Nat)) (name : String) : Option Nat :=
  match entries.find? (fun e => e.1 = name) with
  | some e => some e.2.1
  | none => none

def localRewriteOperand (entries : List (String × Nat × Nat)) (op : PTXOperand) : PTXOperand :=
  if op.addressMode = AddressMode.Address then
    match lookupEntryOffset entries op.identifier with
    | some o => { op with offset := op.offset + o }
    | none => op
  else op

def localOperandHit (entries : List (String × Nat × Nat)) (op : PTXOperand) : Bool :=
  decide (op.addressMode = AddressMode.Address
    ∧ (lookupEntryOffset entries op.identifier).isSome)

def localRewriteInstruction (entries : List (String × Nat × Nat))
    (i : PTXInstruction) : PTXInstruction :=
  if i.opcode = Opcode.Mov ∨ i.opcode = Opcode.Ld ∨ i.opcode = Opcode.St then
    { i with
      addressSpace :=
        if localOperandHit entries i.d ∨ localOperandHit entries i.a
            ∨ localOperandHit entries i.b ∨ localOperandHit entries i.c then
          AddressSpace.Local
        else i.addressSpace
      d := localRewriteOperand entries i.d
      a := localRewriteOperand entries i.a
      b := localRewriteOperand entries i.b
      c := localRewriteOperand entries i.c }
  else i

def setupLocalMemoryReferences (k : PTXKernel) : PTXKernel × Nat :=
  let r := localLayout k
  ({ k with instructions := k.instructions.map (localRewriteInstruction r.1) }, r.2)

theorem pad_add_self_mod (s a : Nat) (h : 0 < a) : (pad s a + a) % a = 0 := by
  rw [Nat.add_mod, pad_mod s a h]
  simp

theorem pad_step (s a : Nat) (h : 0 < a) : pad (pad s a + a) a = pad s a + a :=
  pad_of_mod_eq_zero _ _ (pad_add_self_mod s a h)

theorem localScanOrdinary_spec (ls : List LocalVariable) :
    ∀ (entries : List (String × Nat × Nat)) (size : Nat),
      (∀ e ∈ entries, entryEnd e ≤ size) →
      List.Pairwise (fun e f => entryEnd e ≤ f.2.1) entries →
      size ≤ (localScanOrdinary ls entries size).2
      ∧ (∀ e ∈ (localScanOrdinary ls entries size).1,
          entryEnd e ≤ (localScanOrdinary ls entries size).2)
      ∧ List.Pairwise (fun e f => entryEnd e ≤ f.2.1) (localScanOrdinary ls entries size).1
      ∧ ∃ tail, (localScanOrdinary ls entries size).1 = entries ++ tail
          ∧ ∀ e ∈ tail, size ≤ e.2.1 := by
  induction ls with
  | nil =>
    intro entries size hend hpw
    exact ⟨le_refl _, hend, hpw, [], by simp [localScanOrdinary]⟩
  | cons l rest ih =>
    intro entries size hend hpw
    by_cases hres : l.name ∈ reservedLocalNames
    · simp only [localScanOrdinary, if_pos hres]
      exact ih entries size hend hpw
    · by_cases hsp : l.space = AddressSpace.Local
      · simp only [localScanOrdinary, if_neg hres, if_pos hsp]
        have hple : size ≤ pad size l.alignment := pad_le _ _
        have hend' : ∀ e ∈ entries ++ [(l.name, pad size l.alignment, l.size)],
            entryEnd e ≤ pad size l.alignment + l.size := by
          intro e he
          rcases List.mem_append.mp he with he | he
          · exact le_trans (hend e he) (le_trans hple (Nat.le_add_right _ _))
          · rcases List.mem_singleton.mp he with rfl
            exact le_refl _
        have hpw' : List.Pairwise (fun e f => entryEnd e ≤ f.2.1)
            (entries ++ [(l.name, pad size l.alignment, l.size)]) := by
          rw [List.pairwise_append]
          refine ⟨hpw, List.pairwise_singleton _ _, ?_⟩
          intro e he f hf
          rcases List.mem_singleton.mp hf with rfl
          exact le_trans (hend e he) hple
        obtain ⟨h1, h2, h3, tail, htail, hge⟩ := ih _ _ hend' hpw'
        refine ⟨le_trans (le_trans hple (Nat.le_add_right _ _)) h1, h2, h3, ?_⟩
        refine ⟨(l.name, pad size l.alignment, l.size) :: tail, by simpa using htail, ?_⟩
        intro e he
        rcases List.mem_cons.mp he with rfl | he
        · exact hple
        · exact le_trans (le_trans hple (Nat.le_add_right _ _)) (hge e he)
      · simp only [localScanOrdinary, if_neg hres, if_neg hsp]
        exact ih entries size hend hpw

theorem localFinish_spec (k : PTXKernel) (acc : List (String × Nat × Nat) × Nat)
    (hend : ∀ e ∈ acc.1, entryEnd e ≤ acc.2)
    (hpw : List.Pairwise (fun e f => entryEnd e ≤ f.2.1) acc.1) :
    acc.2 ≤ (localFinish k acc).2
    ∧ (∀ e ∈ (localFinish k acc).1, entryEnd e ≤ (localFinish k acc).2)
    ∧ List.Pairwise (fun e f => entryEnd e ≤ f.2.1) (localFinish k acc).1
    ∧ ∃ tail, (localFinish k acc).1 = acc.1 ++ tail ∧ ∀ e ∈ tail, acc.2 ≤ e.2.1 := by
  obtain ⟨h1, h2, h3, tail, htail, hge⟩ :=
    localScanOrdinary_spec k.locals acc.1 acc.2 hend hpw
  unfold localFinish
  cases hf : k.locals.find? (fun l => l.name = spillName) with
  | none =>
    simp only [localSpillStep]
    exact ⟨h1, h2, h3, tail, htail, hge⟩
  | some l =>
    by_cases hsp : l.space = AddressSpace.Local
    · simp only [localSpillStep, if_pos hsp]
      have hple : (localScanOrdinary k.locals acc.1 acc.2).2
          ≤ pad (localScanOrdinary k.locals acc.1 acc.2).2 l.alignment := pad_le _ _
      refine ⟨le_trans h1 (le_trans hple (Nat.le_add_right _ _)), ?_, ?_, ?_⟩
      · intro e he
        rcases List.mem_append.mp he with he | he
        · exact le_trans (h2 e he) (le_trans hple (Nat.le_add_right _ _))
        · rcases List.mem_singleton.mp he with rfl
          exact le_refl _
      · rw [List.pairwise_append]
        refine ⟨h3, List.pairwise_singleton _ _, ?_⟩
        intro e he f hf'
        rcases List.mem_singleton.mp hf' with rfl
        exact le_trans (h2 e he) hple
      · refine ⟨tail ++ [(spillName,
            pad (localScanOrdinary k.locals acc.1 acc.2).2 l.alignment, l.size)], ?_, ?_⟩
        · rw [htail, List.append_assoc]
        · intro e he
          rcases List.mem_append.mp he with he | he
          · exact hge e he
          · rcases List.mem_singleton.mp he with rfl
            exact le_trans h1 hple
    · simp only [localSpillStep, if_neg hsp]
      exact ⟨h1, h2, h3, tail, htail, hge⟩

theorem localBarrierStep_spec (o : Option LocalVariable) :
    (∀ e ∈ (localBarrierStep o).1, entryEnd e ≤ (localBarrierStep o).2)
    ∧ List.Pairwise (fun e f => entryEnd e ≤ f.2.1) (localBarrierStep o).1 := by
  cases o with
  | none => simp [localBarrierStep]
  | some l =>
    by_cases hsp : l.space = AddressSpace.Local
    · simp only [localBarrierStep, if_pos hsp]
      refine ⟨?_, List.pairwise_singleton _ _⟩
      intro e he
      rcases List.mem_singleton.mp he with rfl
      exact le_refl _
    · simp only [localBarrierStep, if_neg hsp]
      simp

theorem localReserved_end (k : PTXKernel) :
    ∀ e ∈ (localReserved k).1, entryEnd e ≤ (localReserved k).2 := by
  obtain ⟨hend0, -⟩ :=
    localBarrierStep_spec (k.locals.find? (fun l => l.name = barrierName))
  intro e he
  simp only [localReserved] at he ⊢
  rcases List.mem_append.mp he with he | he
  · rcases List.mem_append.mp he with he | he
    · exact le_trans (hend0 e he) (le_trans (pad_le _ 4)
        (le_trans (Nat.le_add_right _ 4) (le_trans (pad_le _ 4) (Nat.le_add_right _ 4))))
    · rcases List.mem_singleton.mp he with rfl
      exact le_trans (pad_le _ 4) (Nat.le_add_right _ 4)
  · rcases List.mem_singleton.mp he with rfl
    exact le_refl _

theorem localReserved_pairwise (k : PTXKernel) :
    List.Pairwise (fun e f => entryEnd e ≤ f.2.1) (localReserved k).1 := by
  obtain ⟨hend0, hpw0⟩ :=
    localBarrierStep_spec (k.locals.find? (fun l => l.name = barrierName))
  simp only [localReserved]
  rw [List.pairwise_append]
  refine ⟨?_, List.pairwise_singleton _ _, ?_⟩
  · rw [List.pairwise_append]
    refine ⟨hpw0, List.pairwise_singleton _ _, ?_⟩
    intro e he f hf
    rcases List.mem_singleton.mp hf with rfl
    exact le_trans (hend0 e he) (pad_le _ 4)
  · intro e he f hf
    rcases List.mem_singleton.mp hf with rfl
    rcases List.mem_append.mp he with he | he
    · exact le_trans (hend0 e he) (le_trans (pad_le _ 4)
        (le_trans (Nat.le_add_right _ 4) (pad_le _ 4)))
    · rcases List.mem_singleton.mp he with rfl
      exact pad_le _ 4

/-- Claim C7: in the local-memory layout the placed entries are sequential
and non-overlapping (each entry ends before the next begins and before the
total size); the reserved slots occupy the first positions in fixed order —
the barrier-resume slot at offset 0 when the subkernel declares one, then
the resume-status and resume-point words — and the spill-area local, when
declared, is placed last, its range ending exactly at `localSize` and
starting at or after the end of every other entry. -/
theorem claim_C7 (k : PTXKernel) :
    List.Pairwise (fun e f => entryEnd e ≤ f.2.1) (localLayout k).1
    ∧ (∀ e ∈ (localLayout k).1, entryEnd e ≤ (localLayout k).2)
    ∧ (∀ l, k.locals.find? (fun x => x.name = barrierName) = some l →
        l.space = AddressSpace.Local →
        (localLayout k).1.take 3
          = [(barrierName, 0, l.size),
             ("_Zocelot_resume_status", pad l.size 4, 4),
             ("_Zocelot_resume_point", pad l.size 4 + 4, 4)])
    ∧ (k.locals.find? (fun x => x.name = barrierName) = none →
        (localLayout k).1.take 2
          = [("_Zocelot_resume_status", 0, 4), ("_Zocelot_resume_point", 4, 4)])
    ∧ (∀ l, k.locals.find? (fun x => x.name = spillName) = some l →
        l.space = AddressSpace.Local →
        ∃ o, (localLayout k).1.getLast? = some (spillName, o, l.size)
          ∧ o + l.size = (localLayout k).2
          ∧ ∀ e ∈ (localLayout k).1.dropLast, entryEnd e ≤ o) := by
  obtain ⟨hf1, hf2, hf3, tail, htail, hge⟩ :=
    localFinish_spec k (localReserved k) (localReserved_end k) (localReserved_pairwise k)
  refine ⟨hf3, hf2, ?_, ?_, ?_⟩
  · intro l hfind hsp
    have hres : (localReserved k).1
        = [(barrierName, 0, l.size),
           ("_Zocelot_resume_status", pad l.size 4, 4),
           ("_Zocelot_resume_point", pad l.size 4 + 4, 4)] := by
      simp only [localReserved, hfind, localBarrierStep, if_pos hsp, pad_zero,
        Nat.zero_add, pad_step l.size 4 (by norm_num), List.singleton_append,
        List.cons_append, List.nil_append]
    show (localFinish k (localReserved k)).1.take 3 = _
    rw [htail, ← hres]
    exact List.take_left' (by rw [hres]; rfl)
  · intro hfind
    have hres : (localReserved k).1
        = [("_Zocelot_resume_status", 0, 4), ("_Zocelot_resume_point", 4, 4)] := by
      simp only [localReserved, hfind, localBarrierStep, pad_zero, Nat.zero_add,
        pad_of_mod_eq_zero 4 4 (Nat.mod_self 4), List.singleton_append,
        List.cons_append, List.nil_append]
    show (localFinish k (localReserved k)).1.take 2 = _
    rw [htail, ← hres]
    exact List.take_left' (by rw [hres]; rfl)
  · intro l hfind hsp
    obtain ⟨h1, h2, h3, tl, htl, hgetl⟩ :=
      localScanOrdinary_spec k.locals (localReserved k).1 (localReserved k).2
        (localReserved_end k) (localReserved_pairwise k)
    have hlay1 : (localLayout k).1
        = (localScanOrdinary k.locals (localReserved k).1 (localReserved k).2).1
            ++ [(spillName,
                  pad (localScanOrdinary k.locals (localReserved k).1 (localReserved k).2).2
                    l.alignment, l.size)] := by
      unfold localLayout localFinish
      rw [hfind]
      simp only [localSpillStep, if_pos hsp]
    have hlay2 : (localLayout k).2
        = pad (localScanOrdinary k.locals (localReserved k).1 (localReserved k).2).2
            l.alignment + l.size := by
      unfold localLayout localFinish
      rw [hfind]
      simp only [localSpillStep, if_pos hsp]
    refine ⟨pad (localScanOrdinary k.locals (localReserved k).1 (localReserved k).2).2
        l.alignment, ?_, ?_, ?_⟩
    · rw [hlay1]
      exact List.getLast?_concat _
    · rw [hlay2]
    · intro e he
      rw [hlay1, List.dropLast_concat] at he
      exact le_trans (h2 e he) (pad_le _ _)

def locBarrier : LocalVariable :=
  ⟨"_Zocelot_barrier_next_kernel", AddressSpace.Local, VarAttr.NoAttr, 8, 4, 8⟩

def locOrd : LocalVariable :=
  ⟨"loc", AddressSpace.Local, VarAttr.NoAttr, 4, 4, 12⟩

def locSpill : LocalVariable :=
  ⟨"_Zocelot_spill_area", AddressSpace.Local, VarAttr.NoAttr, 8, 4, 32⟩

/-- A subkernel declaring a barrier-resume slot, one ordinary local and a
spill area (witness input for the local-layout claim). -/
def kC7 : PTXKernel := ⟨[], [], [], [locBarrier, locOrd, locSpill], []⟩

/-- Witness for claim C7: on `kC7` the reserved slots are placed first
(barrier at 0..8, status at 8, point at 12) and the spill area is the very
last entry, ending at `localSize`. -/
theorem claim_C7_witness :
    (localLayout kC7).1.take 3
      = [(barrierName, 0, 8),
         ("_Zocelot_resume_status", 8, 4), ("_Zocelot_resume_point", 12, 4)]
    ∧ ∃ o, (localLayout kC7).1.getLast? = some (spillName, o, 32)
        ∧ o + 32 = (localLayout kC7).2
        ∧ ∀ e ∈ (localLayout kC7).1.dropLast, entryEnd e ≤ o :=
  ⟨(claim_C7 kC7).2.2.1 locBarrier rfl rfl,
   (claim_C7 kC7).2.2.2.2 locSpill rfl rfl⟩

/-! ## Call-target setup (`setupCallTargets`)

The loop visits every `Call` or `Mov` instruction, skips tail calls, and for
a `FunctionName` operand either recognizes the intrinsic divergence marker
`ptx.warp.divergent` (left untouched, lowered later) or hits
`assert(0 && "arbitrary function calls not yet supported")`.  The write of a
resolved target (`ptx.reentryPoint = id`) is commented out in the source, so
no instruction is modified on any path. -/

def setupCallTargetsScan : List PTXInstruction → Except String Unit
  | [] => .ok ()
  | i :: rest =>
    if i.opcode ≠ Opcode.Call ∧ i.opcode ≠ Opcode.Mov then setupCallTargetsScan rest
    else if i.tailCall then setupCallTargetsScan rest
    else if i.a.addressMode = AddressMode.FunctionName then
      if i.a.identifier = "ptx.warp.divergent" then setupCallTargetsScan rest
      else .error "assert failed: arbitrary function calls not yet supported"
    else setupCallTargetsScan rest

def setupCallTargets (k : PTXKernel) : Except String PTXKernel :=
  match setupCallTargetsScan k.instructions with
  | .error e => .error e
  | .ok _ => .ok k

/-- An instruction on which `setupCallTargets` asserts: a non-tail `Call` or
`Mov` through a function-name operand that is not the intrinsic divergence
marker. -/
def callTargetFatal (i : PTXInstruction) : Prop :=
  (i.opcode = Opcode.Call ∨ i.opcode = Opcode.Mov) ∧ i.tailCall = false
    ∧ i.a.addressMode = AddressMode.FunctionName
    ∧ i.a.identifier ≠ "ptx.warp.divergent"

instance (i : PTXInstruction) : Decidable (callTargetFatal i) := by
  unfold callTargetFatal
  infer_instance

theorem setupCallTargetsScan_spec :
    ∀ instrs : List PTXInstruction,
      (setupCallTargetsScan instrs = .ok () ↔ ∀ i ∈ instrs, ¬ callTargetFatal i)
      ∧ (setupCallTargetsScan instrs = .ok ()
          ∨ setupCallTargetsScan instrs
              = .error "assert failed: arbitrary function calls not yet supported") := by
  intro instrs
  induction instrs with
  | nil => simp [setupCallTargetsScan]
  | cons i rest ih =>
    have hskip :
        setupCallTargetsScan rest = setupCallTargetsScan (i :: rest) →
        ¬ callTargetFatal i →
        (setupCallTargetsScan (i :: rest) = .ok () ↔
          ∀ j ∈ i :: rest, ¬ callTargetFatal j)
        ∧ (setupCallTargetsScan (i :: rest) = .ok ()
            ∨ setupCallTargetsScan (i :: rest)
                = .error "assert failed: arbitrary function calls not yet supported") := by
      intro heq hnf
      rw [← heq]
      refine ⟨?_, ih.2⟩
      rw [ih.1]
      constructor
      · intro hall j hj
        rcases List.mem_cons.mp hj with rfl | hj
        · exact hnf
        · exact hall j hj
      · intro hall j hj
        exact hall j (List.mem_cons_of_mem i hj)
    by_cases h1 : i.opcode ≠ Opcode.Call ∧ i.opcode ≠ Opcode.Mov
    · refine hskip ?_ ?_
      · simp only [setupCallTargetsScan, if_pos h1]
      · rintro ⟨hop, -⟩
        rcases hop with hop | hop
        · exact h1.1 hop
        · exact h1.2 hop
    · by_cases h2 : i.tailCall
      · refine hskip ?_ ?_
        · simp only [setupCallTargetsScan, if_neg h1, if_pos h2]
        · rintro ⟨-, htc, -⟩
          rw [h2] at htc
          cases htc
      · by_cases h3 : i.a.addressMode = AddressMode.FunctionName
        · by_cases h4 : i.a.identifier = "ptx.warp.divergent"
          · refine hskip ?_ ?_
            · simp only [setupCallTargetsScan, if_neg h1, if_neg h2, if_pos h3, if_pos h4]
            · rintro ⟨-, -, -, hne⟩
              exact hne h4
          · have herr : setupCallTargetsScan (i :: rest)
                = .error "assert failed: arbitrary function calls not yet supported" := by
              simp only [setupCallTargetsScan, if_neg h1, if_neg h2, if_pos h3, if_neg h4]
            rw [herr]
            refine ⟨?_, Or.inr rfl⟩
            constructor
            · intro h; cases h
            · intro hall
              exfalso
              apply hall i (List.mem_cons_self i rest)
              refine ⟨?_, ?_, h3, h4⟩
              · by_cases hc : i.opcode = Opcode.Call
                · exact Or.inl hc
                · refine Or.inr ?_
                  by_cases hm : i.opcode = Opcode.Mov
                  · exact hm
                  · exact absurd ⟨hc, hm⟩ h1
              · exact Bool.eq_false_iff.mpr h2
        · refine hskip ?_ ?_
          · simp only [setupCallTargetsScan, if_neg h1, if_neg h2, if_neg h3]
          · rintro ⟨-, -, hmode, -⟩
            exact h3 hmode

/-- Claim C8 (amended): the call-target pass leaves tail calls and the
intrinsic divergence marker `ptx.warp.divergent` unmodified — on success the
kernel is returned entirely unchanged — and treats every other call (or mov)
through a function-name operand as a fatal error; no call operand is ever
rewritten with a resolved subkernel target (that rewrite is absent from the
pass), so in particular a call naming another subkernel is also fatal. -/
theorem claim_C8 (k : PTXKernel) :
    (setupCallTargets k = .ok k
      ∨ setupCallTargets k
          = .error "assert failed: arbitrary function calls not yet supported")
    ∧ (setupCallTargets k = .ok k ↔ ∀ i ∈ k.instructions, ¬ callTargetFatal i) := by
  obtain ⟨hiff, hor⟩ := setupCallTargetsScan_spec k.instructions
  have hok : setupCallTargetsScan k.instructions = .ok () →
      setupCallTargets k = .ok k := by
    intro h
    unfold setupCallTargets
    rw [h]
  rcases hor with hor | hor
  · refine ⟨Or.inl (hok hor), ?_⟩
    constructor
    · intro _; exact hiff.mp hor
    · intro _; exact hok hor
  · have herr : setupCallTargets k
        = .error "assert failed: arbitrary function calls not yet supported" := by
      unfold setupCallTargets
      rw [hor]
    refine ⟨Or.inr herr, ?_⟩
    constructor
    · intro h; rw [herr] at h; cases h
    · intro hall
      exact absurd (hiff.mpr hall) (by rw [hor]; intro h; cases h)

/-- A tail call and an intrinsic divergence-marker call: both are skipped by
the pass, which succeeds and leaves the kernel unchanged. -/
def kC8w : PTXKernel :=
  ⟨[],
   [⟨Opcode.Call, true, AddressSpace.Generic, PTXOperand.register,
     ⟨AddressMode.FunctionName, "other_subkernel", 0, false, []⟩,
     PTXOperand.register, PTXOperand.register⟩,
    ⟨Opcode.Call, false, AddressSpace.Generic, PTXOperand.register,
     ⟨AddressMode.FunctionName, "ptx.warp.divergent", 0, false, []⟩,
     PTXOperand.register, PTXOperand.register⟩],
   [], [], []⟩

theorem claim_C8_witness : setupCallTargets kC8w = .ok kC8w :=
  (claim_C8 kC8w).2.mpr (by decide)

/-- A non-tail call whose operand names another subkernel by name. -/
def kC8x : PTXKernel :=
  ⟨[],
   [⟨Opcode.Call, false, AddressSpace.Generic, PTXOperand.register,
     ⟨AddressMode.FunctionName, "_Z_subkernel_7", 0, false, []⟩,
     PTXOperand.register, PTXOperand.register⟩],
   [], [], []⟩

/-- Counterexample to claim C8 as stated: a call that references another
subkernel by name is not rewritten to carry a resolved target — the pass
aborts with the arbitrary-function-call assertion instead (the resolution
write is commented out in the source). -/
theorem claim_C8_counterexample :
    setupCallTargets kC8x
      = .error "assert failed: arbitrary function calls not yet supported" := rfl

/-! ## The translation cache orchestration

State-passing model of `DynamicTranslationCache`.  Object identities
(`new Translation`, `new TranslatedKernel`) are modelled by counters: two
objects are the same instance exactly when they carry the same id.  The
external LLVM backend steps are modelled by a `BackendOutcome` record saying
which steps succeed; a thrown `hydrazine::Exception` or failed assertion is
`Except.error`.  `subkernels` is the flattened view of
`subkernelsToKernel[id]->subkernels[id]` (each subkernel id resolves through
its owning `TranslatedKernel` to one `TranslatedSubkernel`). -/

abbrev SubkernelId := Nat

structure Translation where
  tid : Nat
  metadata : Nat
  deriving DecidableEq

structure TranslatedSubkernel where
  metadata : Nat
  translations : List (Nat × Translation)
  deriving DecidableEq

structure CacheState where
  translationCache : List (SubkernelId × List (Nat × Translation))
  subkernels : List (SubkernelId × TranslatedSubkernel)
  jitModules : List Nat
  nextId : Nat
  deriving DecidableEq

/-- `LLVMState::jit()->removeModule`: drops one registration of a module. -/
def removeModule : List Nat → Nat → List Nat
  | [], _ => []
  | m :: rest, x => if m = x then rest else m :: removeModule rest x

/-- Which backend steps of one specialization attempt succeed.  The first
three throw on failure; the post-JIT `verifyModule` only prints its
diagnostic to `stderr`. -/
structure BackendOutcome where
  cloneVerifyOk : Bool
  linkOk : Bool
  jitOk : Bool
  finalVerifyOk : Bool
  deriving DecidableEq

/-- Two-level cache lookup (`translationCache.find(subkernelId)` followed by
a `find(warpsize)` in the inner warp map; an absent subkernel behaves as an
empty inner map). -/
def lookup2 (cache : List (SubkernelId × List (Nat × Translation)))
    (sk : SubkernelId) (warpsize : Nat) : Option Translation :=
  assocLookup ((assocLookup cache sk).getD []) warpsize

/-- `_specializeTranslation`: allocate the `Translation`, run
clone/optimize (which verifies and throws on failure), `addModule`, link,
jit; the catch handler removes the module and deletes the translation and
rethrows.  On reaching the end, the post-JIT verification result is only
logged, and the translation is published in the per-subkernel table and the
top-level cache. -/
def specializeTranslation (st : CacheState) (outcome : BackendOutcome)
    (sk : SubkernelId) (warpSize : Nat) (moduleId : Nat) :
    Except String Translation × CacheState :=
  let subkernel := (assocLookup st.subkernels sk).getD ⟨0, []⟩
  let translation : Translation := ⟨st.nextId, subkernel.metadata⟩
  if outcome.cloneVerifyOk = false then
    (.error "LLVM Verifier failed",
      { st with jitModules := removeModule st.jitModules moduleId })
  else
    let st1 := { st with jitModules := st.jitModules ++ [moduleId] }
    if outcome.linkOk = false then
      (.error "assert failed: allocation != 0",
        { st1 with jitModules := removeModule st1.jitModules moduleId })
    else if outcome.jitOk = false then
      (.error "Could not find function",
        { st1 with jitModules := removeModule st1.jitModules moduleId })
    else
      (.ok translation,
        { st1 with
          subkernels := assocUpdate st1.subkernels sk
            { subkernel with
              translations := assocUpdate subkernel.translations warpSize translation }
          translationCache := assocUpdate st1.translationCache sk
            (assocUpdate ((assocLookup st1.translationCache sk).getD []) warpSize translation)
          nextId := st1.nextId + 1 })

/-- `getOrInsertTranslation`: serve a hit from the two-level cache, build the
specialization on a miss. -/
def getOrInsertTranslation (st : CacheState) (outcome : BackendOutcome)
    (warpsize : Nat) (sk : SubkernelId) (moduleId : Nat) :
    Except String Translation × CacheState :=
  match lookup2 st.translationCache sk warpsize with
  | some translation => (.ok translation, st)
  | none => specializeTranslation st outcome sk warpsize moduleId

theorem lookup2_update_self (cache : List (SubkernelId × List (Nat × Translation)))
    (sk : SubkernelId) (w : Nat) (inner : List (Nat × Translation)) (t : Translation) :
    lookup2 (assocUpdate cache sk (assocUpdate inner w t)) sk w = some t := by
  unfold lookup2
  rw [assocLookup_update_self, Option.getD_some, assocLookup_update_self]

theorem specializeTranslation_cache_error (st : CacheState) (outcome : BackendOutcome)
    (sk : SubkernelId) (warpSize moduleId : Nat) (e : String) (st' : CacheState)
    (h : specializeTranslation st outcome sk warpSize moduleId = (.error e, st')) :
    st'.translationCache = st.translationCache := by
  unfold specializeTranslation at h
  by_cases h1 : outcome.cloneVerifyOk = false
  · rw [if_pos h1] at h
    simp only [Prod.mk.injEq] at h
    rw [← h.2]
  · rw [if_neg h1] at h
    by_cases h2 : outcome.linkOk = false
    · rw [if_pos h2] at h
      simp only [Prod.mk.injEq] at h
      rw [← h.2]
    · rw [if_neg h2] at h
      by_cases h3 : outcome.jitOk = false
      · rw [if_pos h3] at h
        simp only [Prod.mk.injEq] at h
        rw [← h.2]
      · rw [if_neg h3] at h
        simp only [Prod.mk.injEq] at h
        cases h.1

theorem specializeTranslation_cache_ok (st : CacheState) (outcome : BackendOutcome)
    (sk : SubkernelId) (warpSize moduleId : Nat) (t : Translation) (st' : CacheState)
    (h : specializeTranslation st outcome sk warpSize moduleId = (.ok t, st')) :
    st'.translationCache
      = assocUpdate st.translationCache sk
          (assocUpdate ((assocLookup st.translationCache sk).getD []) warpSize t) := by
  unfold specializeTranslation at h
  by_cases h1 : outcome.cloneVerifyOk = false
  · rw [if_pos h1] at h
    simp only [Prod.mk.injEq] at h
    cases h.1
  · rw [if_neg h1] at h
    by_cases h2 : outcome.linkOk = false
    · rw [if_pos h2] at h
      simp only [Prod.mk.injEq] at h
      cases h.1
    · rw [if_neg h2] at h
      by_cases h3 : outcome.jitOk = false
      · rw [if_pos h3] at h
        simp only [Prod.mk.injEq] at h
        cases h.1
      · rw [if_neg h3] at h
        simp only [Prod.mk.injEq, Except.ok.injEq] at h
        rw [← h.2, ← h.1]

/-- Claim C1: a hit returns the cached Translation with the state unchanged;
a successful call leaves the built Translation in the cache under its key;
and one `getOrInsertTranslation` step never replaces or mutates any existing
cache entry.  Together these give write-once-publish: the first successful
call for a key constructs and caches the Translation, and every later call
with that key returns the same instance. -/
theorem claim_C1 (st : CacheState) (outcome : BackendOutcome) (warpsize : Nat)
    (sk : SubkernelId) (moduleId : Nat) :
    (∀ t, lookup2 st.translationCache sk warpsize = some t →
      getOrInsertTranslation st outcome warpsize sk moduleId = (.ok t, st))
    ∧ (∀ t st', getOrInsertTranslation st outcome warpsize sk moduleId = (.ok t, st') →
        lookup2 st'.translationCache sk warpsize = some t)
    ∧ (∀ sk' w' t, lookup2 st.translationCache sk' w' = some t →
        lookup2 (getOrInsertTranslation st outcome warpsize sk moduleId).2.translationCache
          sk' w' = some t) := by
  refine ⟨?_, ?_, ?_⟩
  · intro t ht
    unfold getOrInsertTranslation
    rw [ht]
  · intro t st' h
    unfold getOrInsertTranslation at h
    cases hl : lookup2 st.translationCache sk warpsize with
    | some t0 =>
      rw [hl] at h
      simp only [Prod.mk.injEq, Except.ok.injEq] at h
      obtain ⟨rfl, rfl⟩ := h
      exact hl
    | none =>
      rw [hl] at h
      replace h : specializeTranslation st outcome sk warpsize moduleId = (.ok t, st') := h
      rw [specializeTranslation_cache_ok st outcome sk warpsize moduleId t st' h]
      exact lookup2_update_self _ _ _ _ _
  · intro sk' w' t ht
    unfold getOrInsertTranslation
    cases hl : lookup2 st.translationCache sk warpsize with
    | some t0 => exact ht
    | none =>
      show lookup2 (specializeTranslation st outcome sk warpsize moduleId).2.translationCache
          sk' w' = some t
      cases hres : specializeTranslation st outcome sk warpsize moduleId with
      | mk r st2 =>
        cases r with
        | error e =>
          have hc := specializeTranslation_cache_error st outcome sk warpsize moduleId e st2 hres
          show lookup2 st2.translationCache sk' w' = some t
          rw [hc]
          exact ht
        | ok tr =>
          have hc := specializeTranslation_cache_ok st outcome sk warpsize moduleId tr st2 hres
          show lookup2 st2.translationCache sk' w' = some t
          rw [hc]
          unfold lookup2 at ht hl ⊢
          by_cases hsk : sk' = sk
          · subst hsk
            rw [assocLookup_update_self, Option.getD_some]
            have hw : w' ≠ warpsize := by
              intro hww
              rw [hww] at ht
              rw [ht] at hl
              cases hl
            rw [assocLookup_update_ne _ _ _ _ (Ne.symm hw)]
            exact ht
          · rw [assocLookup_update_ne _ _ _ _ (Ne.symm hsk)]
            exact ht

def cacheSt0 : CacheState := ⟨[], [(0, ⟨7, []⟩)], [], 0⟩

def outcomeOk : BackendOutcome := ⟨true, true, true, true⟩

def transW : Translation := ⟨0, 7⟩

def cacheSt1 : CacheState :=
  ⟨[(0, [(1, transW)])], [(0, ⟨7, [(1, transW)]⟩)], [5], 1⟩

/-- Witness for claim C1: the first call for key (0, 1) publishes `transW`;
the second call returns the same instance and leaves the state unchanged. -/
theorem claim_C1_witness :
    lookup2 cacheSt1.translationCache 0 1 = some transW
    ∧ getOrInsertTranslation cacheSt1 outcomeOk 1 0 5 = (.ok transW, cacheSt1) :=
  ⟨(claim_C1 cacheSt0 outcomeOk 1 0 5).2.1 transW cacheSt1 rfl,
   (claim_C1 cacheSt1 outcomeOk 1 0 5).1 transW
     ((claim_C1 cacheSt0 outcomeOk 1 0 5).2.1 transW cacheSt1 rfl)⟩

/-- Claim C3 (amended): if the clone/optimize step (whose verification
failure throws), the link step, or the jit step fails, the call returns the
error and neither the specialization tables nor the translation-id counter
change — no entry is published for the key.  Once those three steps succeed
the Translation is published and returned regardless of the post-JIT
verification check, whose failure is only logged. -/
theorem claim_C3 (st : CacheState) (outcome : BackendOutcome) (sk : SubkernelId)
    (warpSize moduleId : Nat) :
    ((outcome.cloneVerifyOk = false ∨ outcome.linkOk = false ∨ outcome.jitOk = false) →
      ∃ e st', specializeTranslation st outcome sk warpSize moduleId = (.error e, st')
        ∧ st'.translationCache = st.translationCache
        ∧ st'.subkernels = st.subkernels
        ∧ st'.nextId = st.nextId)
    ∧ (outcome.cloneVerifyOk = true ∧ outcome.linkOk = true ∧ outcome.jitOk = true →
      ∃ t st', specializeTranslation st outcome sk warpSize moduleId = (.ok t, st')
        ∧ lookup2 st'.translationCache sk warpSize = some t) := by
  constructor
  · intro hfail
    unfold specializeTranslation
    by_cases h1 : outcome.cloneVerifyOk = false
    · rw [if_pos h1]
      exact ⟨_, _, rfl, rfl, rfl, rfl⟩
    · rw [if_neg h1]
      by_cases h2 : outcome.linkOk = false
      · rw [if_pos h2]
        exact ⟨_, _, rfl, rfl, rfl, rfl⟩
      · rw [if_neg h2]
        by_cases h3 : outcome.jitOk = false
        · rw [if_pos h3]
          exact ⟨_, _, rfl, rfl, rfl, rfl⟩
        · exfalso
          rcases hfail with hf | hf | hf
          · exact h1 hf
          · exact h2 hf
          · exact h3 hf
  · rintro ⟨h1, h2, h3⟩
    unfold specializeTranslation
    rw [if_neg (by rw [h1]; intro h; cases h), if_neg (by rw [h2]; intro h; cases h),
      if_neg (by rw [h3]; intro h; cases h)]
    refine ⟨_, _, rfl, ?_⟩
    exact lookup2_update_self _ _ _ _ _

def outcomeBadClone : BackendOutcome := ⟨false, true, true, true⟩

theorem claim_C3_witness :
    ∃ e st', specializeTranslation cacheSt0 outcomeBadClone 0 1 5 = (.error e, st')
      ∧ st'.translationCache = cacheSt0.translationCache
      ∧ st'.subkernels = cacheSt0.subkernels
      ∧ st'.nextId = cacheSt0.nextId :=
  (claim_C3 cacheSt0 outcomeBadClone 0 1 5).1 (Or.inl rfl)

def outcomeBadVerify : BackendOutcome := ⟨true, true, true, false⟩

/-- Counterexample to claim C3 as stated: with clone/optimize, link and jit
succeeding but the (post-JIT) verification failing, the specialization still
returns success and publishes the Translation under its key — the failing
verification is not propagated to the caller as a fatal translation error. -/
theorem claim_C3_counterexample :
    (specializeTranslation cacheSt0 outcomeBadVerify 0 1 5).1 = .ok transW
    ∧ lookup2 (specializeTranslation cacheSt0 outcomeBadVerify 0 1 5).2.translationCache 0 1
        = some transW :=
  ⟨rfl, rfl⟩

/-! ## Kernel registration (`registerKernel` / `loadModule`)

`registerKernel` asserts the kernel's module is loaded, then checks
`module.kernels` (the per-module `TranslatedKernelNameMap`) for the kernel's
name: if present it does nothing, otherwise it constructs a new
`TranslatedKernel`, stores it in the pointer-keyed `kernels` map and runs
`_translateKernel`.  Nothing in the source ever inserts into
`module.kernels`, which the model reproduces. -/

structure ModuleMetadata where
  kernels : List String
  deriving DecidableEq

structure RegistryState where
  modules : List (String × ModuleMetadata)
  kernels : List (Nat × Nat)
  nextTranslatedKernel : Nat
  translateCount : Nat
  deriving DecidableEq

structure KernelRef where
  ptr : Nat
  name : String
  moduleName : String
  deriving DecidableEq

def loadModule (st : RegistryState) (moduleName : String) : RegistryState :=
  { st with modules := assocUpdate st.modules moduleName ⟨[]⟩ }

def registerKernel (st : RegistryState) (kernel : KernelRef) :
    Except String RegistryState :=
  match assocLookup st.modules kernel.moduleName with
  | none => .error "assert failed: module_it != modules.end()"
  | some m =>
    if kernel.name ∈ m.kernels then
      .ok st
    else
      .ok { st with
        kernels := assocUpdate st.kernels kernel.ptr st.nextTranslatedKernel
        nextTranslatedKernel := st.nextTranslatedKernel + 1
        translateCount := st.translateCount + 1 }

def regKernel : KernelRef := ⟨1, "k", "m"⟩

/-- Claim C2, evaluated at the failing input: after `loadModule "m"`, the
first `registerKernel` constructs TranslatedKernel 0 and runs the
translation pipeline once, but because `module.kernels` is never updated the
second `registerKernel` of the very same kernel misses the already-known
check again: it constructs a second TranslatedKernel (id 1, replacing the
pointer-keyed entry) and runs `_translateKernel` a second time
(`translateCount` reaches 2) — not the no-op the claim states. -/
theorem claim_C2 :
    registerKernel (loadModule ⟨[], [], 0, 0⟩ "m") regKernel
      = .ok ⟨[("m", ⟨[]⟩)], [(1, 0)], 1, 1⟩
    ∧ registerKernel ⟨[("m", ⟨[]⟩)], [(1, 0)], 1, 1⟩ regKernel
      = .ok ⟨[("m", ⟨[]⟩)], [(1, 1)], 2, 2⟩ :=
  ⟨rfl, rfl⟩

end DynTransCache
